import Mathlib

/-!
secp256k1 point arithmetic: a shallow embedding of `secp256k1.go` and `pool.go`

`*big.Int` values are modelled as `Int`.  `big.Int.Mod` is the Euclidean
modulus, which is `%` on `Int`.  The process-wide scratch pool is threaded
through the Jacobian routines as explicit state; a holder is modelled by the
value it contains.  A nil-pointer dereference (the only way the arithmetic can
abort) is modelled by `none`.
-/

namespace Secp256k1

/-! ## pool.go -/

/-- Go's `int` after an arithmetic step: two's complement wrap-around, for the 64-bit
`int` of the usual platforms. -/
def wrapInt (v : Int) : Int := (v + 2 ^ 63) % 2 ^ 64 - 2 ^ 63

/-- The type `numPool` of pool.go (the embedded mutex has no sequential content). -/
structure numPool where
  bns : List Int
  leakedcount : Int
deriving DecidableEq, Repr

/-- The pool built by `init()`: `&numPool{bns: make([]*big.Int, 0)}`. -/
def initPool : numPool := { bns := [], leakedcount := 0 }

/-- The method `Get`: the holder handed out (by its current value) and the new pool.
The global `pool` is never nil, so the `pool == nil` branch is not reachable. -/
def numPool.Get (pool : numPool) : Int × numPool :=
  let leakedcount := wrapInt (pool.leakedcount + 1)
  let l := pool.bns.length
  if l = 0 then
    (0, { bns := pool.bns, leakedcount := leakedcount })
  else
    (pool.bns.getD (l - 1) 0, { bns := pool.bns.take (l - 1), leakedcount := leakedcount })

/-- The method `Put`. -/
def numPool.Put (pool : numPool) (bn : Int) : numPool :=
  { bns := pool.bns ++ [bn], leakedcount := wrapInt (pool.leakedcount - 1) }

/-- The method `Count`. -/
def numPool.Count (pool : numPool) : Int := pool.leakedcount

/-! ## secp256k1.go -/

/-- The function `zForAffine`: 1 unless both coordinates are zero. -/
def zForAffine (x y : Int) : Int :=
  if x ≠ 0 ∨ y ≠ 0 then 1 else 0

/-- The record `elliptic.CurveParams` of Go's standard library. -/
structure CurveParams where
  P : Int
  N : Int
  B : Int
  Gx : Int
  Gy : Int
  BitSize : Int
  Name : String
deriving DecidableEq, Repr

/-- The type `secp256k1Curve`.  The field `A` is never assigned and stays nil. -/
structure secp256k1Curve where
  A : Option Int
  P : Int
  N : Int
  B : Int
  Gx : Int
  Gy : Int
  BitSize : Int
  Name : String
  params : CurveParams
deriving DecidableEq, Repr

/-- The constructor `newsecp256k1`; `new(elliptic.CurveParams)` starts from zero
values, and `Name` of the inner record is not assigned afterwards. -/
def newsecp256k1 : secp256k1Curve :=
  { A := none
    P := 0xFFFFFFFFFFFFFFFFFFFFFFFFFFFFFFFFFFFFFFFFFFFFFFFFFFFFFFFEFFFFFC2F
    N := 0xFFFFFFFFFFFFFFFFFFFFFFFFFFFFFFFEBAAEDCE6AF48A03BBFD25E8CD0364141
    B := 0x0000000000000000000000000000000000000000000000000000000000000007
    Gx := 0x79BE667EF9DCBBAC55A06295CE870B07029BFCDB2DCE28D959F2815B16F81798
    Gy := 0x483ADA7726A3C4655DA4FBFC0E1108A8FD17B448A68554199C47D08FFB10D4B8
    Name := "secp256k1"
    BitSize := 256
    params :=
      { P := 0xFFFFFFFFFFFFFFFFFFFFFFFFFFFFFFFFFFFFFFFFFFFFFFFFFFFFFFFEFFFFFC2F
        N := 0xFFFFFFFFFFFFFFFFFFFFFFFFFFFFFFFEBAAEDCE6AF48A03BBFD25E8CD0364141
        B := 0x0000000000000000000000000000000000000000000000000000000000000007
        Gx := 0x79BE667EF9DCBBAC55A06295CE870B07029BFCDB2DCE28D959F2815B16F81798
        Gy := 0x483ADA7726A3C4655DA4FBFC0E1108A8FD17B448A68554199C47D08FFB10D4B8
        BitSize := 256
        Name := "" } }

/-- The method `Params`. -/
def secp256k1Curve.Params (curve : secp256k1Curve) : CurveParams := curve.params

/-- The method `IsOnCurve`: compares `x³ + b mod P` with `y² mod P`. -/
def secp256k1Curve.IsOnCurve (curve : secp256k1Curve) (x y : Int) : Bool :=
  let y2 := y * y
  let y2 := y2 % curve.P
  let x3 := x * x
  let x3 := x3 * x
  let x3 := x3 + curve.B
  let x3 := x3 % curve.P
  x3 == y2

/-- Go's `(*big.Int).ModInverse(g, n)` for a modulus `n > 0`: the inverse of `g`
in `[0, n)` when `g` and `n` are coprime, and nil (`none`) otherwise.  The caller
reduces every product with the inverse modulo `n`, so only its residue matters. -/
def ModInverse (g n : Int) : Option Int :=
  if Int.gcd g n = 1 then some (Int.gcdA g n % n) else none

/-- The method `affineFromJacobian`.  When `ModInverse` returns nil the following
`Mul` dereferences it and the program aborts: `none`. -/
def secp256k1Curve.affineFromJacobian (curve : secp256k1Curve) (x y z : Int) :
    Option (Int × Int) :=
  if z = 0 then some (0, 0)
  else
    match ModInverse z curve.P with
    | none => none
    | some zinv =>
      let zinvsq := zinv * zinv
      let xOut := x * zinvsq
      let xOut := xOut % curve.P
      let zinvsq := zinvsq * zinv
      let yOut := y * zinvsq
      let yOut := yOut % curve.P
      some (xOut, yOut)

/-- The method `doubleJacobian`, with the pool as explicit state. -/
def secp256k1Curve.doubleJacobian (curve : secp256k1Curve) (x y z : Int) (pool : numPool) :
    (Int × Int × Int) × numPool :=
  if z = 0 then ((0, 0, 0), pool)
  else
    let p := curve.P
    let pool := pool.Get.2
    let A := x * x
    let A := A % p
    let pool := pool.Get.2
    let B := y * y
    let B := B % p
    let pool := pool.Get.2
    let C := B * B
    let C := C % p
    let pool := pool.Get.2
    let t := x + B
    let pool := pool.Get.2
    let t2 := t * t
    let t2 := t2 % p
    let t := t2 - A
    let t2 := t - C
    let pool := pool.Get.2
    let d := t2 + t2
    let t := A + A
    let pool := pool.Get.2
    let e := t + A
    let pool := pool.Get.2
    let f := e * e
    let f := f % p
    let t := d + d
    let x3 := f - t
    let t := C + C
    let t2 := t + t
    let t := t2 + t2
    let y3 := d - x3
    let t2 := e * y3
    let t2 := t2 % p
    let y3 := t2 - t
    let t := y * z
    let t := t % p
    let z3 := t + t
    let pool := pool.Put A
    let pool := pool.Put B
    let pool := pool.Put C
    let pool := pool.Put t
    let pool := pool.Put t2
    let pool := pool.Put d
    let pool := pool.Put e
    let pool := pool.Put f
    ((x3, y3, z3), pool)

/-- The method `addJacobian`, with the pool as explicit state. -/
def secp256k1Curve.addJacobian (curve : secp256k1Curve) (x1 y1 z1 x2 y2 z2 : Int)
    (pool : numPool) : (Int × Int × Int) × numPool :=
  if z1 = 0 then ((x2, y2, z2), pool)
  else if z2 = 0 then ((x1, y1, z1), pool)
  else
    let p := curve.P
    let pool := pool.Get.2
    let z1z1 := z1 * z1
    let z1z1 := z1z1 % p
    let pool := pool.Get.2
    let z2z2 := z2 * z2
    let z2z2 := z2z2 % p
    let pool := pool.Get.2
    let u1 := x1 * z2z2
    let u1 := u1 % p
    let pool := pool.Get.2
    let u2 := x2 * z1z1
    let u2 := u2 % p
    let pool := pool.Get.2
    let t := z2 * z2z2
    let t := t % p
    let pool := pool.Get.2
    let s1 := y1 * t
    let s1 := s1 % p
    let t := z1 * z1z1
    let t := t % p
    let pool := pool.Get.2
    let s2 := y2 * t
    let s2 := s2 % p
    let pool := pool.Get.2
    let h := u2 - u1
    let xEqual := decide (h = 0)
    let t := h + h
    let pool := pool.Get.2
    let i := t * t
    let i := i % p
    let pool := pool.Get.2
    let j := h * i
    let j := j % p
    let t := s2 - s1
    let yEqual := decide (t = 0)
    if xEqual && yEqual then curve.doubleJacobian x1 y1 z1 pool
    else
      let pool := pool.Get.2
      let r := t + t
      let pool := pool.Get.2
      let v := u1 * i
      let v := v % p
      let pool := pool.Get.2
      let t4 := r * r
      let t4 := t4 % p
      let t := v + v
      let pool := pool.Get.2
      let t6 := t4 - j
      let x3 := t6 - t
      let t := v - x3
      let t4 := s1 * j
      let t4 := t4 % p
      let t6 := t4 + t4
      let t4 := r * t
      let t4 := t4 % p
      let y3 := t4 - t6
      let t := z1 + z2
      let t4 := t * t
      let t4 := t4 % p
      let t := t4 - z1z1
      let t4 := t - z2z2
      let z3 := t4 * h
      let z3 := z3 % p
      let pool := pool.Put z1z1
      let pool := pool.Put z2z2
      let pool := pool.Put u1
      let pool := pool.Put u2
      let pool := pool.Put t
      let pool := pool.Put s1
      let pool := pool.Put s2
      let pool := pool.Put h
      let pool := pool.Put i
      let pool := pool.Put j
      let pool := pool.Put r
      let pool := pool.Put v
      let pool := pool.Put t4
      let pool := pool.Put t6
      ((x3, y3, z3), pool)

/-- The method `Add`: the affine result (or `none` on abort) and the pool afterwards. -/
def secp256k1Curve.Add (curve : secp256k1Curve) (x1 y1 x2 y2 : Int) (pool : numPool) :
    Option (Int × Int) × numPool :=
  let z1 := zForAffine x1 y1
  let z2 := zForAffine x2 y2
  let r := curve.addJacobian x1 y1 z1 x2 y2 z2 pool
  (curve.affineFromJacobian r.1.1 r.1.2.1 r.1.2.2, r.2)

/-- The method `Double`. -/
def secp256k1Curve.Double (curve : secp256k1Curve) (x1 y1 : Int) (pool : numPool) :
    Option (Int × Int) × numPool :=
  let z1 := zForAffine x1 y1
  let r := curve.doubleJacobian x1 y1 z1 pool
  (curve.affineFromJacobian r.1.1 r.1.2.1 r.1.2.2, r.2)

/-- The inner loop of `ScalarMult` over the bits of one byte (`n` iterations left);
`byte` is a `uint8`, so the left shift drops the top bit. -/
def secp256k1Curve.scalarMultBits (curve : secp256k1Curve) (Bx By Bz : Int) :
    Nat → Nat → (Int × Int × Int) × numPool → (Int × Int × Int) × numPool
  | 0, _, acc => acc
  | n + 1, byte, acc =>
    let acc := curve.doubleJacobian acc.1.1 acc.1.2.1 acc.1.2.2 acc.2
    let acc :=
      if byte &&& 0x80 = 0x80 then curve.addJacobian Bx By Bz acc.1.1 acc.1.2.1 acc.1.2.2 acc.2
      else acc
    let byte := (byte <<< 1) % 256
    curve.scalarMultBits Bx By Bz n byte acc

/-- The method `ScalarMult`; `k` is the byte slice, first byte first. -/
def secp256k1Curve.ScalarMult (curve : secp256k1Curve) (Bx By : Int) (k : List Nat)
    (pool : numPool) : Option (Int × Int) × numPool :=
  let Bz : Int := 1
  let r := k.foldl (fun acc byte => curve.scalarMultBits Bx By Bz 8 byte acc) ((0, 0, 0), pool)
  (curve.affineFromJacobian r.1.1 r.1.2.1 r.1.2.2, r.2)

/-- The method `ScalarBaseMult`. -/
def secp256k1Curve.ScalarBaseMult (curve : secp256k1Curve) (k : List Nat) (pool : numPool) :
    Option (Int × Int) × numPool :=
  curve.ScalarMult curve.Gx curve.Gy k pool

/-- The unsigned integer a byte slice encodes in big-endian order (`big.Int.SetBytes`). -/
def bytesToNat (k : List Nat) : Nat := k.foldl (fun acc b => acc * 256 + b) 0


/-- The scalar of the test vector, as the 32 bytes `b.Bytes()` yields. -/
def testScalar : List Nat :=
  [0xAA, 0x5E, 0x28, 0xD6, 0xA9, 0x7A, 0x24, 0x79, 0xA6, 0x55, 0x27, 0xF7, 0x29, 0x03, 0x11, 0xA3,
   0x62, 0x4D, 0x4C, 0xC0, 0xFA, 0x15, 0x78, 0x59, 0x8E, 0xE3, 0xC2, 0x61, 0x3B, 0xF9, 0x95, 0x22]

/-- The scalar of the order test: the 32 big-endian bytes of the group order `N`. -/
def orderScalar : List Nat :=
  [0xFF, 0xFF, 0xFF, 0xFF, 0xFF, 0xFF, 0xFF, 0xFF, 0xFF, 0xFF, 0xFF, 0xFF, 0xFF, 0xFF, 0xFF, 0xFE,
   0xBA, 0xAE, 0xDC, 0xE6, 0xAF, 0x48, 0xA0, 0x3B, 0xBF, 0xD2, 0x5E, 0x8C, 0xD0, 0x36, 0x41, 0x41]

/-! ## Auxiliary definitions used in the proofs -/

/-- The field modulus `P` as a natural number. -/
def fieldPrime : Nat := 0xFFFFFFFFFFFFFFFFFFFFFFFFFFFFFFFFFFFFFFFFFFFFFFFFFFFFFFFEFFFFFC2F

/-- Square-and-multiply modular power with explicit fuel (the number of exponent bits). -/
def powModAux : Nat → Nat → Nat → Nat → Nat
  | 0, _, _, m => 1 % m
  | fuel + 1, a, n, m =>
    if n = 0 then 1 % m
    else
      let h := powModAux fuel a (n / 2) m
      if n % 2 = 0 then h * h % m else h * h % m * a % m

/-- The chord rule in Jacobian form, x-coordinate: `4(s2-s1)² - 4h²(u1+u2)` with
`h = u2 - u1` (the comment in `addJacobian`). -/
def chordX {R : Type} [CommRing R] (u1 u2 s1 s2 : R) : R :=
  4 * (s2 - s1) ^ 2 - 4 * (u2 - u1) ^ 2 * (u1 + u2)

/-- The chord rule in Jacobian form, y-coordinate: `2(s2-s1)(4h²u1 - X3) - 8 s1 h³`. -/
def chordY {R : Type} [CommRing R] (u1 u2 s1 s2 : R) : R :=
  2 * (s2 - s1) * (4 * (u2 - u1) ^ 2 * u1 - chordX u1 u2 s1 s2) - 8 * s1 * (u2 - u1) ^ 3

/-- The tangent rule in Jacobian form, x-coordinate: `(3x²)² - 2·4xy²`. -/
def tangentX {R : Type} [CommRing R] (x y : R) : R :=
  9 * x ^ 4 - 8 * x * y ^ 2

/-- The tangent rule in Jacobian form, y-coordinate: `3x²(4xy² - X3) - 8y⁴`. -/
def tangentY {R : Type} [CommRing R] (x y : R) : R :=
  3 * x ^ 2 * (4 * x * y ^ 2 - tangentX x y) - 8 * y ^ 4

/-- One call on the pool: `Get()` or `Put(bn)`. -/
inductive poolCall where
  | get : poolCall
  | put (bn : Int) : poolCall
deriving DecidableEq, Repr

/-- The pool after a sequence of calls, first call first. -/
def runCalls (pool : numPool) (cs : List poolCall) : numPool :=
  cs.foldl
    (fun p c =>
      match c with
      | poolCall.get => p.Get.2
      | poolCall.put bn => p.Put bn)
    pool

/-- The number of `Get` calls in a sequence. -/
def getCalls : List poolCall → Nat
  | [] => 0
  | poolCall.get :: cs => getCalls cs + 1
  | poolCall.put _ :: cs => getCalls cs

/-- The number of `Put` calls in a sequence. -/
def putCalls : List poolCall → Nat
  | [] => 0
  | poolCall.get :: cs => putCalls cs
  | poolCall.put _ :: cs => putCalls cs + 1

/-- The 32 big-endian bytes of `N + 2`: on this scalar the last ladder step adds the
generator to an accumulator that already represents the generator. -/
def orderPlusTwoScalar : List Nat :=
  [0xFF, 0xFF, 0xFF, 0xFF, 0xFF, 0xFF, 0xFF, 0xFF, 0xFF, 0xFF, 0xFF, 0xFF, 0xFF, 0xFF, 0xFF, 0xFE,
   0xBA, 0xAE, 0xDC, 0xE6, 0xAF, 0x48, 0xA0, 0x3B, 0xBF, 0xD2, 0x5E, 0x8C, 0xD0, 0x36, 0x41, 0x43]

/-- Whether `addJacobian` takes its branch for two representations of the same point:
both `Z` are non-zero, `h = 0` and `s2 - s1 = 0`. -/
def secp256k1Curve.addTakesDoubling (curve : secp256k1Curve) (x1 y1 z1 x2 y2 z2 : Int) :
    Bool :=
  let p := curve.P
  decide (z1 ≠ 0) && decide (z2 ≠ 0) &&
    (decide (x2 * (z1 * z1 % p) % p - x1 * (z2 * z2 % p) % p = 0) &&
      decide (y2 * (z1 * (z1 * z1 % p) % p) % p - y1 * (z2 * (z2 * z2 % p) % p) % p = 0))

/-- The inner loop of `ScalarMult` with the pool replaced by its counter: the counter
moves (by ten) only when the add step takes the branch for equal points. -/
def secp256k1Curve.scalarMultBitsCount (curve : secp256k1Curve) (Bx By Bz : Int) :
    Nat → Nat → (Int × Int × Int) × Int → (Int × Int × Int) × Int
  | 0, _, acc => acc
  | n + 1, byte, acc =>
    let v := (curve.doubleJacobian acc.1.1 acc.1.2.1 acc.1.2.2 initPool).1
    let acc :=
      if byte &&& 0x80 = 0x80 then
        ((curve.addJacobian Bx By Bz v.1 v.2.1 v.2.2 initPool).1,
          if curve.addTakesDoubling Bx By Bz v.1 v.2.1 v.2.2 then wrapInt (acc.2 + 10)
          else acc.2)
      else (v, acc.2)
    let byte := (byte <<< 1) % 256
    curve.scalarMultBitsCount Bx By Bz n byte acc

/-- The affine multiples `i·G` of the generator for `i = 0, …, 16`, with `(0, 0)` for
`i = 0`. -/
def generatorMultiples : List (Int × Int) :=
  [(0, 0),
   (55066263022277343669578718895168534326250603453777594175500187360389116729240,
    32670510020758816978083085130507043184471273380659243275938904335757337482424),
   (89565891926547004231252920425935692360644145829622209833684329913297188986597,
    12158399299693830322967808612713398636155367887041628176798871954788371653930),
   (112711660439710606056748659173929673102114977341539408544630613555209775888121,
    25583027980570883691656905877401976406448868254816295069919888960541586679410),
   (103388573995635080359749164254216598308788835304023601477803095234286494993683,
    37057141145242123013015316630864329550140216928701153669873286428255828810018),
   (21505829891763648114329055987619236494102133314575206970830385799158076338148,
    98003708678762621233683240503080860129026887322874138805529884920309963580118),
   (115780575977492633039504758427830329241728645270042306223540962614150928364886,
    78735063515800386211891312544505775871260717697865196436804966483607426560663),
   (41948375291644419605210209193538855353224492619856392092318293986323063962044,
    48361766907851246668144012348516735800090617714386977531302791340517493990618),
   (21262057306151627953595685090280431278183829487175876377991189246716355947009,
    41749993296225487051377864631615517161996906063147759678534462689479575333124),
   (78173298682877769088723994436027545680738210601369041078747105985693655485630,
    92362876758821804597230797234617159328445543067760556585160674174871431781431),
   (72488970228380509287422715226575535698893157273063074627791787432852706183111,
    62070622898698443831883535403436258712770888294397026493185421712108624767191),
   (53957576663012291606402345341061437133522758407718089353314528343643821967563,
    98386217607324929854432842186271083758341411730506808463586570492533445740059),
   (94111259592240215275188773285036844871058226277992966241101117022315524122714,
    76870767327212528811304566602812752860184934880685532702451763239157141742375),
   (109699032664856045668214896063362497021339186688470416858630178803463338613416,
    4835088675770141268294878046681321747490758260515711581034896622314066275713),
   (33301309993451753050311554695703528430361259803437469669590207169100761277412,
    91711666877231500617203373035680263572492971120307578300405368749466283229019),
   (97505755694356382817881959832717013755620551362654128955029190924747025549326,
    39856815248295663243990443767776362321337592747889787217974905533720651000664),
   (104059883622109321374094289636044428849728529177856482232626205340719788190730,
    112122903140080327253741791678230372394936108416576609264408917599318947489825)]

/-- A check, by congruences, that `r` is the pair `affineFromJacobian` returns on the
Jacobian triple `(X, Y, Z)`. -/
def affineMatches (X Y Z : Int) (r : Int × Int) : Bool :=
  if Z = 0 then decide (r = (0, 0))
  else
    decide (Z % newsecp256k1.P ≠ 0) &&
      (decide (0 ≤ r.1 ∧ r.1 < newsecp256k1.P) &&
        (decide (0 ≤ r.2 ∧ r.2 < newsecp256k1.P) &&
          (decide ((r.1 * Z ^ 2 - X) % newsecp256k1.P = 0) &&
            decide ((r.2 * Z ^ 3 - Y) % newsecp256k1.P = 0))))

/-! ## Primality of the field modulus (Lucas certificates) -/

theorem powModAux_eq (m : ℕ) :
    ∀ (fuel a n : ℕ), n < 2 ^ fuel → powModAux fuel a n m = a ^ n % m := by
  intro fuel
  induction fuel with
  | zero =>
    intro a n hn
    have h0 : n = 0 := by simpa using hn
    subst h0
    simp [powModAux]
  | succ k ih =>
    intro a n hn
    unfold powModAux
    by_cases h0 : n = 0
    · subst h0; simp
    · have hhalf : n / 2 < 2 ^ k := by
        rw [Nat.div_lt_iff_lt_mul (by norm_num)]
        calc n < 2 ^ (k + 1) := hn
          _ = 2 ^ k * 2 := by ring
      simp only [h0, if_false, ih a (n / 2) hhalf]
      have hsq : a ^ (n / 2) % m * (a ^ (n / 2) % m) % m = a ^ (2 * (n / 2)) % m := by
        rw [← Nat.mul_mod, two_mul, pow_add]
      by_cases hpar : n % 2 = 0
      · simp only [hpar, if_true, hsq]
        congr 2
        omega
      · simp only [hpar, if_false, hsq]
        have hn2 : n = 2 * (n / 2) + 1 := by omega
        conv_rhs => rw [hn2, pow_succ]
        rw [Nat.mod_mul_mod]

theorem prime_of_lucas_cert (p a : ℕ) (fs : List ℕ) (hfs : ∀ q ∈ fs, Nat.Prime q)
    (hp1 : 1 < p) (hprod : fs.prod = p - 1) (hlt : p < 2 ^ 260)
    (ha : powModAux 260 a (p - 1) p = 1)
    (hd : ∀ q ∈ fs, powModAux 260 a ((p - 1) / q) p ≠ 1) : Nat.Prime p := by
  have hcast : ∀ n : ℕ, n < 2 ^ 260 →
      ((a : ZMod p) ^ n = 1 ↔ powModAux 260 a n p = 1) := by
    intro n hn
    rw [powModAux_eq p 260 a n hn]
    have h := ZMod.natCast_eq_natCast_iff' (a ^ n) 1 p
    rw [Nat.cast_pow, Nat.cast_one, Nat.mod_eq_of_lt hp1] at h
    exact h
  apply lucas_primality p (a : ZMod p)
  · exact (hcast _ (lt_of_le_of_lt (Nat.sub_le _ _) hlt)).2 ha
  · intro q hq hdvd
    rw [← hprod] at hdvd
    obtain ⟨r, hr, hqr⟩ := (Prime.dvd_prod_iff (Nat.prime_iff.1 hq)).1 hdvd
    have hqeq : q = r := (Nat.prime_dvd_prime_iff_eq hq (hfs r hr)).1 hqr
    subst hqeq
    intro hone
    have hlt' : (p - 1) / q < 2 ^ 260 :=
      lt_of_le_of_lt ((Nat.div_le_self _ _).trans (Nat.sub_le _ _)) hlt
    exact hd q hr ((hcast _ hlt').1 hone)

theorem prime_13441 : Nat.Prime 13441 :=
  prime_of_lucas_cert 13441 11
    [2, 2, 2, 2, 2, 2, 2, 3, 5, 7]
    (by
    simp only [List.forall_mem_cons, List.not_mem_nil, false_imp_iff, implies_true, and_true]
    exact ⟨(by norm_num), (by norm_num), (by norm_num), (by norm_num), (by norm_num), (by norm_num), (by norm_num), (by norm_num), (by norm_num), (by norm_num)⟩)
    (by decide!) (by decide!) (by decide!) (by decide!) (by decide!)

theorem prime_7723 : Nat.Prime 7723 :=
  prime_of_lucas_cert 7723 3
    [2, 3, 3, 3, 11, 13]
    (by
    simp only [List.forall_mem_cons, List.not_mem_nil, false_imp_iff, implies_true, and_true]
    exact ⟨(by norm_num), (by norm_num), (by norm_num), (by norm_num), (by norm_num), (by norm_num)⟩)
    (by decide!) (by decide!) (by decide!) (by decide!) (by decide!)

theorem prime_5323 : Nat.Prime 5323 :=
  prime_of_lucas_cert 5323 5
    [2, 3, 887]
    (by
    simp only [List.forall_mem_cons, List.not_mem_nil, false_imp_iff, implies_true, and_true]
    exact ⟨(by norm_num), (by norm_num), (by norm_num)⟩)
    (by decide!) (by decide!) (by decide!) (by decide!) (by decide!)

theorem prime_2621 : Nat.Prime 2621 :=
  prime_of_lucas_cert 2621 2
    [2, 2, 5, 131]
    (by
    simp only [List.forall_mem_cons, List.not_mem_nil, false_imp_iff, implies_true, and_true]
    exact ⟨(by norm_num), (by norm_num), (by norm_num), (by norm_num)⟩)
    (by decide!) (by decide!) (by decide!) (by decide!) (by decide!)

theorem prime_24809 : Nat.Prime 24809 :=
  prime_of_lucas_cert 24809 6
    [2, 2, 2, 7, 443]
    (by
    simp only [List.forall_mem_cons, List.not_mem_nil, false_imp_iff, implies_true, and_true]
    exact ⟨(by norm_num), (by norm_num), (by norm_num), (by norm_num), (by norm_num)⟩)
    (by decide!) (by decide!) (by decide!) (by decide!) (by decide!)

theorem prime_1373 : Nat.Prime 1373 :=
  prime_of_lucas_cert 1373 2
    [2, 2, 7, 7, 7]
    (by
    simp only [List.forall_mem_cons, List.not_mem_nil, false_imp_iff, implies_true, and_true]
    exact ⟨(by norm_num), (by norm_num), (by norm_num), (by norm_num), (by norm_num)⟩)
    (by decide!) (by decide!) (by decide!) (by decide!) (by decide!)

theorem prime_13331831 : Nat.Prime 13331831 :=
  prime_of_lucas_cert 13331831 13
    [2, 5, 971, 1373]
    (by
    simp only [List.forall_mem_cons, List.not_mem_nil, false_imp_iff, implies_true, and_true]
    exact ⟨(by norm_num), (by norm_num), (by norm_num), prime_1373⟩)
    (by decide!) (by decide!) (by decide!) (by decide!) (by decide!)

theorem prime_173378833005251801 : Nat.Prime 173378833005251801 :=
  prime_of_lucas_cert 173378833005251801 6
    [2, 2, 2, 5, 5, 2621, 24809, 13331831]
    (by
    simp only [List.forall_mem_cons, List.not_mem_nil, false_imp_iff, implies_true, and_true]
    exact ⟨(by norm_num), (by norm_num), (by norm_num), (by norm_num), (by norm_num), prime_2621, prime_24809, prime_13331831⟩)
    (by decide!) (by decide!) (by decide!) (by decide!) (by decide!)

theorem prime_22149492674086928081353 : Nat.Prime 22149492674086928081353 :=
  prime_of_lucas_cert 22149492674086928081353 5
    [2, 2, 2, 3, 5323, 173378833005251801]
    (by
    simp only [List.forall_mem_cons, List.not_mem_nil, false_imp_iff, implies_true, and_true]
    exact ⟨(by norm_num), (by norm_num), (by norm_num), (by norm_num), prime_5323, prime_173378833005251801⟩)
    (by decide!) (by decide!) (by decide!) (by decide!) (by decide!)

theorem prime_132896956044521568488119 : Nat.Prime 132896956044521568488119 :=
  prime_of_lucas_cert 132896956044521568488119 6
    [2, 3, 22149492674086928081353]
    (by
    simp only [List.forall_mem_cons, List.not_mem_nil, false_imp_iff, implies_true, and_true]
    exact ⟨(by norm_num), (by norm_num), prime_22149492674086928081353⟩)
    (by decide!) (by decide!) (by decide!) (by decide!) (by decide!)

theorem prime_1627 : Nat.Prime 1627 :=
  prime_of_lucas_cert 1627 3
    [2, 3, 271]
    (by
    simp only [List.forall_mem_cons, List.not_mem_nil, false_imp_iff, implies_true, and_true]
    exact ⟨(by norm_num), (by norm_num), (by norm_num)⟩)
    (by decide!) (by decide!) (by decide!) (by decide!) (by decide!)

theorem prime_2657 : Nat.Prime 2657 :=
  prime_of_lucas_cert 2657 3
    [2, 2, 2, 2, 2, 83]
    (by
    simp only [List.forall_mem_cons, List.not_mem_nil, false_imp_iff, implies_true, and_true]
    exact ⟨(by norm_num), (by norm_num), (by norm_num), (by norm_num), (by norm_num), (by norm_num)⟩)
    (by decide!) (by decide!) (by decide!) (by decide!) (by decide!)

theorem prime_4423 : Nat.Prime 4423 :=
  prime_of_lucas_cert 4423 3
    [2, 3, 11, 67]
    (by
    simp only [List.forall_mem_cons, List.not_mem_nil, false_imp_iff, implies_true, and_true]
    exact ⟨(by norm_num), (by norm_num), (by norm_num), (by norm_num)⟩)
    (by decide!) (by decide!) (by decide!) (by decide!) (by decide!)

theorem prime_41201 : Nat.Prime 41201 :=
  prime_of_lucas_cert 41201 3
    [2, 2, 2, 2, 5, 5, 103]
    (by
    simp only [List.forall_mem_cons, List.not_mem_nil, false_imp_iff, implies_true, and_true]
    exact ⟨(by norm_num), (by norm_num), (by norm_num), (by norm_num), (by norm_num), (by norm_num), (by norm_num)⟩)
    (by decide!) (by decide!) (by decide!) (by decide!) (by decide!)

theorem prime_96557 : Nat.Prime 96557 :=
  prime_of_lucas_cert 96557 2
    [2, 2, 101, 239]
    (by
    simp only [List.forall_mem_cons, List.not_mem_nil, false_imp_iff, implies_true, and_true]
    exact ⟨(by norm_num), (by norm_num), (by norm_num), (by norm_num)⟩)
    (by decide!) (by decide!) (by decide!) (by decide!) (by decide!)

theorem prime_20113 : Nat.Prime 20113 :=
  prime_of_lucas_cert 20113 10
    [2, 2, 2, 2, 3, 419]
    (by
    simp only [List.forall_mem_cons, List.not_mem_nil, false_imp_iff, implies_true, and_true]
    exact ⟨(by norm_num), (by norm_num), (by norm_num), (by norm_num), (by norm_num), (by norm_num)⟩)
    (by decide!) (by decide!) (by decide!) (by decide!) (by decide!)

theorem prime_1206781 : Nat.Prime 1206781 :=
  prime_of_lucas_cert 1206781 10
    [2, 2, 3, 5, 20113]
    (by
    simp only [List.forall_mem_cons, List.not_mem_nil, false_imp_iff, implies_true, and_true]
    exact ⟨(by norm_num), (by norm_num), (by norm_num), (by norm_num), prime_20113⟩)
    (by decide!) (by decide!) (by decide!) (by decide!) (by decide!)

theorem prime_7240687 : Nat.Prime 7240687 :=
  prime_of_lucas_cert 7240687 3
    [2, 3, 1206781]
    (by
    simp only [List.forall_mem_cons, List.not_mem_nil, false_imp_iff, implies_true, and_true]
    exact ⟨(by norm_num), (by norm_num), prime_1206781⟩)
    (by decide!) (by decide!) (by decide!) (by decide!) (by decide!)

theorem prime_107590001 : Nat.Prime 107590001 :=
  prime_of_lucas_cert 107590001 3
    [2, 2, 2, 2, 5, 5, 5, 5, 7, 29, 53]
    (by
    simp only [List.forall_mem_cons, List.not_mem_nil, false_imp_iff, implies_true, and_true]
    exact ⟨(by norm_num), (by norm_num), (by norm_num), (by norm_num), (by norm_num), (by norm_num), (by norm_num), (by norm_num), (by norm_num), (by norm_num), (by norm_num)⟩)
    (by decide!) (by decide!) (by decide!) (by decide!) (by decide!)

theorem prime_255515944373312847190720520512484175977 : Nat.Prime 255515944373312847190720520512484175977 :=
  prime_of_lucas_cert 255515944373312847190720520512484175977 3
    [2, 2, 2, 7, 7, 11, 1627, 2657, 4423, 41201, 96557, 7240687, 107590001]
    (by
    simp only [List.forall_mem_cons, List.not_mem_nil, false_imp_iff, implies_true, and_true]
    exact ⟨(by norm_num), (by norm_num), (by norm_num), (by norm_num), (by norm_num), (by norm_num), prime_1627, prime_2657, prime_4423, prime_41201, prime_96557, prime_7240687, prime_107590001⟩)
    (by decide!) (by decide!) (by decide!) (by decide!) (by decide!)

theorem prime_205115282021455665897114700593932402728804164701536103180137503955397371 : Nat.Prime 205115282021455665897114700593932402728804164701536103180137503955397371 :=
  prime_of_lucas_cert 205115282021455665897114700593932402728804164701536103180137503955397371 10
    [2, 3, 5, 29, 29, 31, 7723, 132896956044521568488119, 255515944373312847190720520512484175977]
    (by
    simp only [List.forall_mem_cons, List.not_mem_nil, false_imp_iff, implies_true, and_true]
    exact ⟨(by norm_num), (by norm_num), (by norm_num), (by norm_num), (by norm_num), (by norm_num), prime_7723, prime_132896956044521568488119, prime_255515944373312847190720520512484175977⟩)
    (by decide!) (by decide!) (by decide!) (by decide!) (by decide!)

theorem prime_115792089237316195423570985008687907853269984665640564039457584007908834671663 : Nat.Prime 115792089237316195423570985008687907853269984665640564039457584007908834671663 :=
  prime_of_lucas_cert 115792089237316195423570985008687907853269984665640564039457584007908834671663 3
    [2, 3, 7, 13441, 205115282021455665897114700593932402728804164701536103180137503955397371]
    (by
    simp only [List.forall_mem_cons, List.not_mem_nil, false_imp_iff, implies_true, and_true]
    exact ⟨(by norm_num), (by norm_num), (by norm_num), prime_13441, prime_205115282021455665897114700593932402728804164701536103180137503955397371⟩)
    (by decide!) (by decide!) (by decide!) (by decide!) (by decide!)

theorem fieldPrime_prime : Nat.Prime fieldPrime :=
  prime_115792089237316195423570985008687907853269984665640564039457584007908834671663

theorem P_eq : newsecp256k1.P = (fieldPrime : ℤ) := by decide!

/-! ## Modular inverse and conversion to affine coordinates -/

theorem fieldPrime_pos : (0 : ℤ) < (fieldPrime : ℤ) := by decide!

theorem cast_ne_zero_imp (z : ℤ) (hz : (z : ZMod fieldPrime) ≠ 0) : z ≠ 0 := by
  rintro rfl
  exact hz (by simp)

theorem gcd_eq_one_of_cast_ne_zero (z : ℤ) (hz : (z : ZMod fieldPrime) ≠ 0) :
    Int.gcd z (fieldPrime : ℤ) = 1 := by
  have hnd : ¬ (fieldPrime : ℤ) ∣ z := fun h =>
    hz ((ZMod.intCast_zmod_eq_zero_iff_dvd z fieldPrime).2 h)
  have hnd' : ¬ fieldPrime ∣ z.natAbs := fun h => hnd (Int.natCast_dvd.2 h)
  have hco : Nat.Coprime fieldPrime z.natAbs :=
    (Nat.Prime.coprime_iff_not_dvd fieldPrime_prime).2 hnd'
  have : Int.gcd z (fieldPrime : ℤ) = Nat.gcd z.natAbs fieldPrime := by
    simp [Int.gcd]
  rw [this]
  exact hco.symm

theorem ModInverse_spec (z : ℤ) (hz : (z : ZMod fieldPrime) ≠ 0) :
    ∃ w : ℤ, ModInverse z newsecp256k1.P = some w ∧ 0 ≤ w ∧ w < newsecp256k1.P ∧
      (z : ZMod fieldPrime) * (w : ZMod fieldPrime) = 1 := by
  have hg := gcd_eq_one_of_cast_ne_zero z hz
  refine ⟨Int.gcdA z fieldPrime % fieldPrime, ?_, ?_, ?_, ?_⟩
  · rw [P_eq]; unfold ModInverse; rw [if_pos hg]
  · exact Int.emod_nonneg _ (ne_of_gt fieldPrime_pos)
  · rw [P_eq]; exact Int.emod_lt_of_pos _ fieldPrime_pos
  · rw [ZMod.intCast_mod]
    have hb := Int.gcd_eq_gcd_ab z (fieldPrime : ℤ)
    rw [hg] at hb
    have hb' : ((1 : ℕ) : ZMod fieldPrime) =
        (z : ZMod fieldPrime) * (Int.gcdA z fieldPrime : ZMod fieldPrime) := by
      have := congrArg (fun t : ℤ => (t : ZMod fieldPrime)) hb
      simpa using this
    rw [Nat.cast_one] at hb'
    exact hb'.symm

theorem affineFromJacobian_spec (x y z : ℤ) (hz : (z : ZMod fieldPrime) ≠ 0) :
    ∃ a b : ℤ, newsecp256k1.affineFromJacobian x y z = some (a, b) ∧
      (0 ≤ a ∧ a < newsecp256k1.P) ∧ (0 ≤ b ∧ b < newsecp256k1.P) ∧
      (a : ZMod fieldPrime) * (z : ZMod fieldPrime) ^ 2 = (x : ZMod fieldPrime) ∧
      (b : ZMod fieldPrime) * (z : ZMod fieldPrime) ^ 3 = (y : ZMod fieldPrime) := by
  obtain ⟨w, hw, -, -, hwc⟩ := ModInverse_spec z hz
  have hz0 := cast_ne_zero_imp z hz
  refine ⟨x * (w * w) % newsecp256k1.P, y * (w * w * w) % newsecp256k1.P, ?_, ?_, ?_, ?_, ?_⟩
  · unfold secp256k1Curve.affineFromJacobian
    rw [if_neg hz0, hw]
  · rw [P_eq]
    exact ⟨Int.emod_nonneg _ (ne_of_gt fieldPrime_pos), Int.emod_lt_of_pos _ fieldPrime_pos⟩
  · rw [P_eq]
    exact ⟨Int.emod_nonneg _ (ne_of_gt fieldPrime_pos), Int.emod_lt_of_pos _ fieldPrime_pos⟩
  · rw [P_eq, ZMod.intCast_mod]
    push_cast
    linear_combination ((x : ZMod fieldPrime) * ((z : ZMod fieldPrime) * w + 1)) * hwc
  · rw [P_eq, ZMod.intCast_mod]
    push_cast
    linear_combination ((y : ZMod fieldPrime) *
      (((z : ZMod fieldPrime) * w) ^ 2 + (z : ZMod fieldPrime) * w + 1)) * hwc

theorem eq_of_cast_eq (a b : ℤ) (ha : 0 ≤ a ∧ a < newsecp256k1.P)
    (hb : 0 ≤ b ∧ b < newsecp256k1.P) (h : (a : ZMod fieldPrime) = (b : ZMod fieldPrime)) :
    a = b := by
  rw [P_eq] at ha hb
  have h' := (ZMod.intCast_eq_intCast_iff' a b fieldPrime).1 h
  rwa [Int.emod_eq_of_lt ha.1 ha.2, Int.emod_eq_of_lt hb.1 hb.2] at h'

/-! ## Values of the Jacobian routines do not depend on the pool -/

theorem doubleJacobian_fst (curve : secp256k1Curve) (x y z : Int) (pool pool' : numPool) :
    (curve.doubleJacobian x y z pool).1 = (curve.doubleJacobian x y z pool').1 := by
  unfold secp256k1Curve.doubleJacobian
  split_ifs <;> rfl

theorem addJacobian_fst (curve : secp256k1Curve) (x1 y1 z1 x2 y2 z2 : Int)
    (pool pool' : numPool) :
    (curve.addJacobian x1 y1 z1 x2 y2 z2 pool).1 =
      (curve.addJacobian x1 y1 z1 x2 y2 z2 pool').1 := by
  simp only [secp256k1Curve.addJacobian]
  split_ifs
  · rfl
  · rfl
  · exact doubleJacobian_fst _ _ _ _ _ _
  · rfl

theorem scalarMultBits_fst (curve : secp256k1Curve) (Bx By Bz : Int) (n : Nat) :
    ∀ (byte : Nat) (acc acc' : (Int × Int × Int) × numPool), acc.1 = acc'.1 →
      (curve.scalarMultBits Bx By Bz n byte acc).1 =
        (curve.scalarMultBits Bx By Bz n byte acc').1 := by
  induction n with
  | zero => intro byte acc acc' h; simpa [secp256k1Curve.scalarMultBits] using h
  | succ n ih =>
    intro byte acc acc' h
    simp only [secp256k1Curve.scalarMultBits]
    apply ih
    have hd : (curve.doubleJacobian acc.1.1 acc.1.2.1 acc.1.2.2 acc.2).1 =
        (curve.doubleJacobian acc'.1.1 acc'.1.2.1 acc'.1.2.2 acc'.2).1 := by
      rw [h]; exact doubleJacobian_fst _ _ _ _ _ _
    split_ifs
    · rw [hd]; exact addJacobian_fst _ _ _ _ _ _ _ _ _
    · exact hd

theorem scalarMultFold_fst (curve : secp256k1Curve) (Bx By Bz : Int) (k : List Nat) :
    ∀ (acc acc' : (Int × Int × Int) × numPool), acc.1 = acc'.1 →
      (k.foldl (fun a byte => curve.scalarMultBits Bx By Bz 8 byte a) acc).1 =
        (k.foldl (fun a byte => curve.scalarMultBits Bx By Bz 8 byte a) acc').1 := by
  induction k with
  | nil => intro acc acc' h; simpa using h
  | cons b k ih =>
    intro acc acc' h
    simp only [List.foldl_cons]
    exact ih _ _ (scalarMultBits_fst curve Bx By Bz 8 b acc acc' h)

theorem ScalarMult_fst (curve : secp256k1Curve) (Bx By : Int) (k : List Nat)
    (pool pool' : numPool) :
    (curve.ScalarMult Bx By k pool).1 = (curve.ScalarMult Bx By k pool').1 := by
  unfold secp256k1Curve.ScalarMult
  simp only
  rw [scalarMultFold_fst curve Bx By 1 k ((0, 0, 0), pool) ((0, 0, 0), pool') rfl]


/-! ## Constants -/

/-- C2: the curve built by `newsecp256k1` carries the published constants, in its own
fields and in the record returned by `Params`, and the generator is on the curve. -/
theorem newsecp256k1_constants :
    newsecp256k1.P = 2 ^ 256 - 2 ^ 32 - 977 ∧
    newsecp256k1.P = 0xFFFFFFFFFFFFFFFFFFFFFFFFFFFFFFFFFFFFFFFFFFFFFFFFFFFFFFFEFFFFFC2F ∧
    newsecp256k1.N = 0xFFFFFFFFFFFFFFFFFFFFFFFFFFFFFFFEBAAEDCE6AF48A03BBFD25E8CD0364141 ∧
    newsecp256k1.B = 7 ∧
    newsecp256k1.Gx = 0x79BE667EF9DCBBAC55A06295CE870B07029BFCDB2DCE28D959F2815B16F81798 ∧
    newsecp256k1.Gy = 0x483ADA7726A3C4655DA4FBFC0E1108A8FD17B448A68554199C47D08FFB10D4B8 ∧
    newsecp256k1.BitSize = 256 ∧
    newsecp256k1.Params.P = 2 ^ 256 - 2 ^ 32 - 977 ∧
    newsecp256k1.Params.N = 0xFFFFFFFFFFFFFFFFFFFFFFFFFFFFFFFEBAAEDCE6AF48A03BBFD25E8CD0364141 ∧
    newsecp256k1.Params.B = 7 ∧
    newsecp256k1.Params.Gx = 0x79BE667EF9DCBBAC55A06295CE870B07029BFCDB2DCE28D959F2815B16F81798 ∧
    newsecp256k1.Params.Gy = 0x483ADA7726A3C4655DA4FBFC0E1108A8FD17B448A68554199C47D08FFB10D4B8 ∧
    newsecp256k1.Params.BitSize = 256 ∧
    newsecp256k1.IsOnCurve newsecp256k1.Gx newsecp256k1.Gy = true := by
  decide!

/-- C3, evaluated on the code: the record returned by `Params` on the curve built by
`newsecp256k1` has the empty string as its `Name`, not "secp256k1"; only the curve
value itself carries that name. -/
theorem params_name_empty :
    newsecp256k1.Params.Name = "" ∧ newsecp256k1.Params.Name ≠ "secp256k1" ∧
      newsecp256k1.Name = "secp256k1" := by
  decide

/-- C4: `IsOnCurve x y` is true exactly when `y² ≡ x³ + 7 (mod P)`, for all integers;
the identity pair `(0, 0)` is not on the curve. -/
theorem isOnCurve_iff_curve_equation :
    (∀ x y : Int, newsecp256k1.IsOnCurve x y = true ↔
      y ^ 2 ≡ x ^ 3 + 7 [ZMOD newsecp256k1.P]) ∧
    newsecp256k1.IsOnCurve 0 0 = false := by
  refine ⟨fun x y => ?_, by decide!⟩
  have hB : newsecp256k1.B = 7 := by decide!
  unfold secp256k1Curve.IsOnCurve Int.ModEq
  simp only [beq_iff_eq, hB]
  rw [show x * x * x = x ^ 3 by ring, show y * y = y ^ 2 by ring]
  exact eq_comm


/-! ## Checking an affine image by congruences -/

theorem cast_ne_zero_of_emod (z : ℤ) (hz : z % newsecp256k1.P ≠ 0) :
    (z : ZMod fieldPrime) ≠ 0 := by
  intro h
  rw [P_eq] at hz
  exact hz (Int.emod_eq_zero_of_dvd ((ZMod.intCast_zmod_eq_zero_iff_dvd z fieldPrime).1 h))

theorem cast_eq_of_emod (a b : ℤ) (h : (a - b) % newsecp256k1.P = 0) :
    (a : ZMod fieldPrime) = (b : ZMod fieldPrime) := by
  rw [P_eq] at h
  have hd : (fieldPrime : ℤ) ∣ a - b := Int.dvd_of_emod_eq_zero h
  have := (ZMod.intCast_zmod_eq_zero_iff_dvd (a - b) fieldPrime).2 hd
  push_cast at this
  exact sub_eq_zero.1 this

theorem affineFromJacobian_eq (x y z a b : ℤ) (hz : z % newsecp256k1.P ≠ 0)
    (ha : 0 ≤ a ∧ a < newsecp256k1.P) (hb : 0 ≤ b ∧ b < newsecp256k1.P)
    (hxa : (a * z ^ 2 - x) % newsecp256k1.P = 0)
    (hyb : (b * z ^ 3 - y) % newsecp256k1.P = 0) :
    newsecp256k1.affineFromJacobian x y z = some (a, b) := by
  haveI : Fact (Nat.Prime fieldPrime) := ⟨fieldPrime_prime⟩
  have hzc := cast_ne_zero_of_emod z hz
  obtain ⟨a', b', hres, ha', hb', hxa', hyb'⟩ := affineFromJacobian_spec x y z hzc
  have h1 := cast_eq_of_emod _ _ hxa
  have h2 := cast_eq_of_emod _ _ hyb
  push_cast at h1 h2
  have e1 : a' = a := eq_of_cast_eq a' a ha' ha
    (mul_right_cancel₀ (pow_ne_zero 2 hzc) (hxa'.trans h1.symm))
  have e2 : b' = b := eq_of_cast_eq b' b hb' hb
    (mul_right_cancel₀ (pow_ne_zero 3 hzc) (hyb'.trans h2.symm))
  rw [hres, e1, e2]

/-! ## Concrete scalar multiplications -/

theorem testScalar_jacobian :
    (testScalar.foldl
      (fun acc byte => newsecp256k1.scalarMultBits newsecp256k1.Gx newsecp256k1.Gy 1 8 byte acc)
      ((0, 0, 0), initPool)).1 =
    (695067950485051346092755733559868579838738053721882205865784537466223236715946,
      -433362340474792207263740036125932973396229376178573246227387833786087734249434,
      65561853870884141817409989784197357959783653581409526617228382395931188526274) := by
  decide!

theorem orderScalar_jacobian :
    (orderScalar.foldl
      (fun acc byte => newsecp256k1.scalarMultBits newsecp256k1.Gx newsecp256k1.Gy 1 8 byte acc)
      ((0, 0, 0), initPool)).1.2.2 = 0 := by
  decide!

/-- C1: for the scalar `0xAA5E…9522` given as its 32 big-endian bytes, `ScalarBaseMult`
(which is `ScalarMult` at the generator) returns the expected affine point,
from every pool state. -/
theorem scalarBaseMult_test_vector :
    testScalar.length = 32 ∧
    bytesToNat testScalar =
      0xAA5E28D6A97A2479A65527F7290311A3624D4CC0FA1578598EE3C2613BF99522 ∧
    ∀ pool : numPool,
      newsecp256k1.ScalarBaseMult testScalar pool =
        newsecp256k1.ScalarMult newsecp256k1.Gx newsecp256k1.Gy testScalar pool ∧
      (newsecp256k1.ScalarBaseMult testScalar pool).1 =
        some (23960696573610029253367988531088137163395307586261939660421638862381187549638,
          5176714262835066281222529495396963740342889891785920566957581938958806065714) := by
  refine ⟨by decide!, by decide!, fun pool => ⟨rfl, ?_⟩⟩
  unfold secp256k1Curve.ScalarBaseMult
  rw [ScalarMult_fst newsecp256k1 _ _ testScalar pool initPool]
  unfold secp256k1Curve.ScalarMult
  simp only
  rw [testScalar_jacobian]
  exact affineFromJacobian_eq _ _ _ _ _ (by decide!) (by decide!) (by decide!) (by decide!)
    (by decide!)

/-- C10: with `k` the 32 big-endian bytes of the group order `N`, `ScalarMult` at the
generator returns the identity `(0, 0)`, from every pool state. -/
theorem scalarMult_order_generator :
    orderScalar.length = 32 ∧
    (bytesToNat orderScalar : Int) = newsecp256k1.N ∧
    ∀ pool : numPool,
      (newsecp256k1.ScalarMult newsecp256k1.Gx newsecp256k1.Gy orderScalar pool).1 =
        some (0, 0) := by
  refine ⟨by decide!, by decide!, fun pool => ?_⟩
  rw [ScalarMult_fst newsecp256k1 _ _ orderScalar pool initPool]
  unfold secp256k1Curve.ScalarMult
  simp only
  unfold secp256k1Curve.affineFromJacobian
  rw [if_pos orderScalar_jacobian]

/-! ## The Jacobian formulas over the field -/

theorem chord_on_curve {R : Type} [CommRing R] (x1 y1 x2 y2 : R)
    (h1 : y1 ^ 2 = x1 ^ 3 + 7) (h2 : y2 ^ 2 = x2 ^ 3 + 7) :
    chordY x1 x2 y1 y2 ^ 2 = chordX x1 x2 y1 y2 ^ 3 + 7 * (2 * (x2 - x1) * 1 * 1) ^ 6 := by
  unfold chordY chordX
  linear_combination
    (-64 * x1 ^ 6 + 192 * x1 ^ 5 * x2 + 64 * x1 ^ 3 * y1 ^ 2 - 128 * x1 ^ 3 * y1 * y2 -
      576 * x1 ^ 3 * x2 ^ 3 + 448 * x1 ^ 3 - 192 * x1 ^ 2 * y1 ^ 2 * x2 +
      384 * x1 ^ 2 * y1 * x2 * y2 + 768 * x1 ^ 2 * x2 ^ 4 - 1344 * x1 ^ 2 * x2 +
      192 * x1 * y1 ^ 2 * x2 ^ 2 - 384 * x1 * y1 * x2 ^ 2 * y2 - 384 * x1 * x2 ^ 5 +
      1344 * x1 * x2 ^ 2 - 64 * y1 ^ 2 * x2 ^ 3 + 128 * y1 * x2 ^ 3 * y2 + 64 * x2 ^ 6 -
      448 * x2 ^ 3) * h1 +
    (64 * x1 ^ 6 - 384 * x1 ^ 5 * x2 + 768 * x1 ^ 4 * x2 ^ 2 + 128 * x1 ^ 3 * y1 * y2 -
      576 * x1 ^ 3 * x2 ^ 3 - 64 * x1 ^ 3 * y2 ^ 2 - 448 * x1 ^ 3 - 384 * x1 ^ 2 * y1 * x2 * y2 +
      192 * x1 ^ 2 * x2 * y2 ^ 2 + 1344 * x1 ^ 2 * x2 + 384 * x1 * y1 * x2 ^ 2 * y2 +
      192 * x1 * x2 ^ 5 - 192 * x1 * x2 ^ 2 * y2 ^ 2 - 1344 * x1 * x2 ^ 2 -
      128 * y1 * x2 ^ 3 * y2 - 64 * x2 ^ 6 + 64 * x2 ^ 3 * y2 ^ 2 + 448 * x2 ^ 3) * h2

theorem tangent_on_curve {R : Type} [CommRing R] (x y : R) (h : y ^ 2 = x ^ 3 + 7) :
    tangentY x y ^ 2 = tangentX x y ^ 3 + 7 * (2 * y * 1) ^ 6 := by
  unfold tangentY tangentX
  linear_combination (64 * y ^ 6) * h

theorem chordX_swap {R : Type} [CommRing R] (u1 u2 s1 s2 : R) :
    chordX u2 u1 s2 s1 = chordX u1 u2 s1 s2 := by
  unfold chordX; ring

theorem chordY_swap {R : Type} [CommRing R] (u1 u2 s1 s2 : R) :
    chordY u2 u1 s2 s1 = -chordY u1 u2 s1 s2 := by
  unfold chordY chordX; ring

/-! ## What the Jacobian routines compute -/

theorem sub_emod_eq_zero_iff (a b : ℤ) :
    a % newsecp256k1.P - b % newsecp256k1.P = 0 ↔
      (a : ZMod fieldPrime) = (b : ZMod fieldPrime) := by
  rw [P_eq, sub_eq_zero, ZMod.intCast_eq_intCast_iff']

theorem doubleJacobian_zero (x y : ℤ) (pool : numPool) :
    (newsecp256k1.doubleJacobian x y 0 pool).1 = (0, 0, 0) := by
  unfold secp256k1Curve.doubleJacobian
  rw [if_pos rfl]

theorem doubleJacobian_spec (x y z : ℤ) (hz : z ≠ 0) (pool : numPool) :
    ∃ X Y Z : ℤ, (newsecp256k1.doubleJacobian x y z pool).1 = (X, Y, Z) ∧
      Z = 2 * (y * z % newsecp256k1.P) ∧
      (X : ZMod fieldPrime) = tangentX (x : ZMod fieldPrime) y ∧
      (Y : ZMod fieldPrime) = tangentY (x : ZMod fieldPrime) y ∧
      (Z : ZMod fieldPrime) = 2 * y * z := by
  refine ⟨(newsecp256k1.doubleJacobian x y z pool).1.1,
    (newsecp256k1.doubleJacobian x y z pool).1.2.1,
    (newsecp256k1.doubleJacobian x y z pool).1.2.2, rfl, ?_, ?_, ?_, ?_⟩
  · simp only [secp256k1Curve.doubleJacobian, if_neg hz]
    ring
  · simp only [secp256k1Curve.doubleJacobian, if_neg hz, P_eq]
    push_cast [ZMod.intCast_mod]
    unfold tangentX
    ring
  · simp only [secp256k1Curve.doubleJacobian, if_neg hz, P_eq]
    push_cast [ZMod.intCast_mod]
    unfold tangentY tangentX
    ring
  · simp only [secp256k1Curve.doubleJacobian, if_neg hz, P_eq]
    push_cast [ZMod.intCast_mod]
    ring

theorem addJacobian_left_zero (x1 y1 x2 y2 z2 : ℤ) (pool : numPool) :
    (newsecp256k1.addJacobian x1 y1 0 x2 y2 z2 pool).1 = (x2, y2, z2) := by
  unfold secp256k1Curve.addJacobian
  rw [if_pos rfl]

theorem addJacobian_right_zero (x1 y1 z1 x2 y2 : ℤ) (pool : numPool) (hz1 : z1 ≠ 0) :
    (newsecp256k1.addJacobian x1 y1 z1 x2 y2 0 pool).1 = (x1, y1, z1) := by
  unfold secp256k1Curve.addJacobian
  rw [if_neg hz1, if_pos rfl]

theorem addJacobian_xEqual_iff (x1 z1 x2 z2 : ℤ) :
    x2 * (z1 * z1 % newsecp256k1.P) % newsecp256k1.P -
        x1 * (z2 * z2 % newsecp256k1.P) % newsecp256k1.P = 0 ↔
      (x2 : ZMod fieldPrime) * (z1 : ZMod fieldPrime) ^ 2 =
        (x1 : ZMod fieldPrime) * (z2 : ZMod fieldPrime) ^ 2 := by
  rw [sub_emod_eq_zero_iff, P_eq]
  push_cast [ZMod.intCast_mod]
  rw [pow_two, pow_two]

theorem addJacobian_yEqual_iff (y1 z1 y2 z2 : ℤ) :
    y2 * (z1 * (z1 * z1 % newsecp256k1.P) % newsecp256k1.P) % newsecp256k1.P -
        y1 * (z2 * (z2 * z2 % newsecp256k1.P) % newsecp256k1.P) % newsecp256k1.P = 0 ↔
      (y2 : ZMod fieldPrime) * (z1 : ZMod fieldPrime) ^ 3 =
        (y1 : ZMod fieldPrime) * (z2 : ZMod fieldPrime) ^ 3 := by
  rw [sub_emod_eq_zero_iff, P_eq]
  push_cast [ZMod.intCast_mod]
  rw [show (z1 : ZMod fieldPrime) ^ 3 = z1 * (z1 * z1) by ring,
    show (z2 : ZMod fieldPrime) ^ 3 = z2 * (z2 * z2) by ring]

theorem addJacobian_same (x1 y1 z1 x2 y2 z2 : ℤ) (pool pool' : numPool)
    (hz1 : z1 ≠ 0) (hz2 : z2 ≠ 0)
    (hx : (x2 : ZMod fieldPrime) * (z1 : ZMod fieldPrime) ^ 2 =
      (x1 : ZMod fieldPrime) * (z2 : ZMod fieldPrime) ^ 2)
    (hy : (y2 : ZMod fieldPrime) * (z1 : ZMod fieldPrime) ^ 3 =
      (y1 : ZMod fieldPrime) * (z2 : ZMod fieldPrime) ^ 3) :
    (newsecp256k1.addJacobian x1 y1 z1 x2 y2 z2 pool).1 =
      (newsecp256k1.doubleJacobian x1 y1 z1 pool').1 := by
  have hh := (addJacobian_xEqual_iff x1 z1 x2 z2).2 hx
  have ht := (addJacobian_yEqual_iff y1 z1 y2 z2).2 hy
  simp only [secp256k1Curve.addJacobian, if_neg hz1, if_neg hz2]
  split_ifs with hc
  · exact doubleJacobian_fst _ _ _ _ _ _
  · exfalso
    apply hc
    simp only [Bool.and_eq_true, decide_eq_true_eq]
    exact ⟨hh, ht⟩

theorem addJacobian_general (x1 y1 z1 x2 y2 z2 : ℤ) (pool : numPool)
    (hz1 : z1 ≠ 0) (hz2 : z2 ≠ 0)
    (hne : ¬ ((x2 : ZMod fieldPrime) * (z1 : ZMod fieldPrime) ^ 2 =
        (x1 : ZMod fieldPrime) * (z2 : ZMod fieldPrime) ^ 2 ∧
      (y2 : ZMod fieldPrime) * (z1 : ZMod fieldPrime) ^ 3 =
        (y1 : ZMod fieldPrime) * (z2 : ZMod fieldPrime) ^ 3)) :
    ∃ X Y Z : ℤ, (newsecp256k1.addJacobian x1 y1 z1 x2 y2 z2 pool).1 = (X, Y, Z) ∧
      (0 ≤ Z ∧ Z < newsecp256k1.P) ∧
      (X : ZMod fieldPrime) = chordX ((x1 : ZMod fieldPrime) * (z2 : ZMod fieldPrime) ^ 2)
        ((x2 : ZMod fieldPrime) * (z1 : ZMod fieldPrime) ^ 2)
        ((y1 : ZMod fieldPrime) * (z2 : ZMod fieldPrime) ^ 3)
        ((y2 : ZMod fieldPrime) * (z1 : ZMod fieldPrime) ^ 3) ∧
      (Y : ZMod fieldPrime) = chordY ((x1 : ZMod fieldPrime) * (z2 : ZMod fieldPrime) ^ 2)
        ((x2 : ZMod fieldPrime) * (z1 : ZMod fieldPrime) ^ 2)
        ((y1 : ZMod fieldPrime) * (z2 : ZMod fieldPrime) ^ 3)
        ((y2 : ZMod fieldPrime) * (z1 : ZMod fieldPrime) ^ 3) ∧
      (Z : ZMod fieldPrime) =
        2 * ((x2 : ZMod fieldPrime) * (z1 : ZMod fieldPrime) ^ 2 -
          (x1 : ZMod fieldPrime) * (z2 : ZMod fieldPrime) ^ 2) * z1 * z2 := by
  have hc : ¬ ((decide (x2 * (z1 * z1 % newsecp256k1.P) % newsecp256k1.P -
        x1 * (z2 * z2 % newsecp256k1.P) % newsecp256k1.P = 0) &&
      decide (y2 * (z1 * (z1 * z1 % newsecp256k1.P) % newsecp256k1.P) % newsecp256k1.P -
        y1 * (z2 * (z2 * z2 % newsecp256k1.P) % newsecp256k1.P) % newsecp256k1.P = 0)) =
      true) := by
    simp only [Bool.and_eq_true, decide_eq_true_eq, addJacobian_xEqual_iff,
      addJacobian_yEqual_iff]
    exact hne
  refine ⟨(newsecp256k1.addJacobian x1 y1 z1 x2 y2 z2 pool).1.1,
    (newsecp256k1.addJacobian x1 y1 z1 x2 y2 z2 pool).1.2.1,
    (newsecp256k1.addJacobian x1 y1 z1 x2 y2 z2 pool).1.2.2, rfl, ?_, ?_, ?_, ?_⟩
  · simp only [secp256k1Curve.addJacobian, if_neg hz1, if_neg hz2, if_neg hc]
    simp only [P_eq]
    exact ⟨Int.emod_nonneg _ (ne_of_gt fieldPrime_pos), Int.emod_lt_of_pos _ fieldPrime_pos⟩
  · simp only [secp256k1Curve.addJacobian, if_neg hz1, if_neg hz2, if_neg hc]
    simp only [P_eq]
    push_cast [ZMod.intCast_mod]
    unfold chordX
    ring
  · simp only [secp256k1Curve.addJacobian, if_neg hz1, if_neg hz2, if_neg hc]
    simp only [P_eq]
    push_cast [ZMod.intCast_mod]
    unfold chordY chordX
    ring
  · simp only [secp256k1Curve.addJacobian, if_neg hz1, if_neg hz2, if_neg hc]
    simp only [P_eq]
    push_cast [ZMod.intCast_mod]
    ring

/-! ## From Jacobian results to affine results -/

theorem zForAffine_zero : zForAffine 0 0 = 0 := by
  unfold zForAffine
  rw [if_neg (by simp)]

theorem zForAffine_one (x y : ℤ) (h : x ≠ 0 ∨ y ≠ 0) : zForAffine x y = 1 := by
  unfold zForAffine
  rw [if_pos h]

theorem affineFromJacobian_zero (x y : ℤ) :
    newsecp256k1.affineFromJacobian x y 0 = some (0, 0) := by
  unfold secp256k1Curve.affineFromJacobian
  rw [if_pos rfl]

theorem affineFromJacobian_one (x y : ℤ) (hx : 0 ≤ x ∧ x < newsecp256k1.P)
    (hy : 0 ≤ y ∧ y < newsecp256k1.P) :
    newsecp256k1.affineFromJacobian x y 1 = some (x, y) := by
  apply affineFromJacobian_eq x y 1 x y (by decide!) hx hy
  · rw [one_pow, mul_one, sub_self]; rfl
  · rw [one_pow, mul_one, sub_self]; rfl

theorem two_cast_ne_zero : (2 : ZMod fieldPrime) ≠ 0 := by
  have h := cast_ne_zero_of_emod 2 (by decide!)
  push_cast at h
  exact h

theorem cast_eq_zero_iff_of_range (a : ℤ) (ha : 0 ≤ a ∧ a < newsecp256k1.P) :
    (a : ZMod fieldPrime) = 0 ↔ a = 0 := by
  constructor
  · intro h
    exact eq_of_cast_eq a 0 ha (by decide!) (by rw [h]; simp)
  · rintro rfl
    simp

theorem emod_range (a : ℤ) : 0 ≤ a % newsecp256k1.P ∧ a % newsecp256k1.P < newsecp256k1.P := by
  rw [P_eq]
  exact ⟨Int.emod_nonneg _ (ne_of_gt fieldPrime_pos), Int.emod_lt_of_pos _ fieldPrime_pos⟩

/-- The output `Z` of `doubleJacobian` is twice a reduced value: zero or a unit. -/
theorem double_z_dichotomy (t : ℤ) (ht : 0 ≤ t ∧ t < newsecp256k1.P) :
    2 * t = 0 ∨ ((2 * t : ℤ) : ZMod fieldPrime) ≠ 0 := by
  haveI : Fact (Nat.Prime fieldPrime) := ⟨fieldPrime_prime⟩
  by_cases h0 : t = 0
  · left; rw [h0]; rfl
  · right
    push_cast
    intro h
    rcases mul_eq_zero.1 h with h2 | h2
    · exact two_cast_ne_zero h2
    · exact h0 ((cast_eq_zero_iff_of_range t ht).1 h2)

theorem affineFromJacobian_total (x y z : ℤ) (hz : z = 0 ∨ (z : ZMod fieldPrime) ≠ 0) :
    ∃ r, newsecp256k1.affineFromJacobian x y z = some r := by
  rcases hz with rfl | hz
  · exact ⟨_, affineFromJacobian_zero x y⟩
  · obtain ⟨a, b, h, -⟩ := affineFromJacobian_spec x y z hz
    exact ⟨_, h⟩

/-- Two Jacobian triples that represent the same projective point have the same
affine image. -/
theorem affineFromJacobian_congr (x y z x' y' z' : ℤ) (hz : (z : ZMod fieldPrime) ≠ 0)
    (hz' : (z' : ZMod fieldPrime) ≠ 0)
    (hx : (x' : ZMod fieldPrime) * (z : ZMod fieldPrime) ^ 2 =
      (x : ZMod fieldPrime) * (z' : ZMod fieldPrime) ^ 2)
    (hy : (y' : ZMod fieldPrime) * (z : ZMod fieldPrime) ^ 3 =
      (y : ZMod fieldPrime) * (z' : ZMod fieldPrime) ^ 3) :
    newsecp256k1.affineFromJacobian x y z = newsecp256k1.affineFromJacobian x' y' z' := by
  haveI : Fact (Nat.Prime fieldPrime) := ⟨fieldPrime_prime⟩
  obtain ⟨a, b, h, ha, hb, hxa, hyb⟩ := affineFromJacobian_spec x y z hz
  obtain ⟨a', b', h', ha', hb', hxa', hyb'⟩ := affineFromJacobian_spec x' y' z' hz'
  have e1 : a = a' := by
    apply eq_of_cast_eq a a' ha ha'
    apply mul_right_cancel₀ (mul_ne_zero (pow_ne_zero 2 hz) (pow_ne_zero 2 hz'))
    linear_combination ((z' : ZMod fieldPrime) ^ 2) * hxa -
      ((z : ZMod fieldPrime) ^ 2) * hxa' - hx
  have e2 : b = b' := by
    apply eq_of_cast_eq b b' hb hb'
    apply mul_right_cancel₀ (mul_ne_zero (pow_ne_zero 3 hz) (pow_ne_zero 3 hz'))
    linear_combination ((z' : ZMod fieldPrime) ^ 3) * hyb -
      ((z : ZMod fieldPrime) ^ 3) * hyb' - hy
  rw [h, h', e1, e2]

theorem isOnCurve_iff_cast (x y : ℤ) :
    newsecp256k1.IsOnCurve x y = true ↔
      (y : ZMod fieldPrime) ^ 2 = (x : ZMod fieldPrime) ^ 3 + 7 := by
  have hB : newsecp256k1.B = 7 := by decide!
  unfold secp256k1Curve.IsOnCurve
  simp only [beq_iff_eq, hB, P_eq]
  rw [← ZMod.intCast_eq_intCast_iff']
  push_cast
  constructor
  · intro h; linear_combination -h
  · intro h; linear_combination -h

/-- A Jacobian triple with invertible `Z` that satisfies `Y² = X³ + 7 Z⁶` converts to an
affine point on the curve. -/
theorem isOnCurve_of_jacobian (x y z : ℤ) (hz : (z : ZMod fieldPrime) ≠ 0)
    (h : (y : ZMod fieldPrime) ^ 2 =
      (x : ZMod fieldPrime) ^ 3 + 7 * (z : ZMod fieldPrime) ^ 6) :
    ∃ a b : ℤ, newsecp256k1.affineFromJacobian x y z = some (a, b) ∧
      newsecp256k1.IsOnCurve a b = true := by
  haveI : Fact (Nat.Prime fieldPrime) := ⟨fieldPrime_prime⟩
  obtain ⟨a, b, hres, -, -, hxa, hyb⟩ := affineFromJacobian_spec x y z hz
  refine ⟨a, b, hres, (isOnCurve_iff_cast a b).2 ?_⟩
  apply mul_right_cancel₀ (pow_ne_zero 6 hz)
  rw [← hxa, ← hyb] at h
  linear_combination h

/-! ## The public operations -/

theorem Add_of_jacobian (x1 y1 x2 y2 X Y Z : ℤ) (pool : numPool)
    (h : (newsecp256k1.addJacobian x1 y1 (zForAffine x1 y1) x2 y2 (zForAffine x2 y2) pool).1 =
      (X, Y, Z)) :
    (newsecp256k1.Add x1 y1 x2 y2 pool).1 = newsecp256k1.affineFromJacobian X Y Z := by
  unfold secp256k1Curve.Add
  simp only [h]

theorem Double_of_jacobian (x1 y1 X Y Z : ℤ) (pool : numPool)
    (h : (newsecp256k1.doubleJacobian x1 y1 (zForAffine x1 y1) pool).1 = (X, Y, Z)) :
    (newsecp256k1.Double x1 y1 pool).1 = newsecp256k1.affineFromJacobian X Y Z := by
  unfold secp256k1Curve.Double
  simp only [h]

theorem affineFromJacobian_zForAffine (x y : ℤ) (hx : 0 ≤ x ∧ x < newsecp256k1.P)
    (hy : 0 ≤ y ∧ y < newsecp256k1.P) :
    newsecp256k1.affineFromJacobian x y (zForAffine x y) = some (x, y) := by
  by_cases hA : x ≠ 0 ∨ y ≠ 0
  · rw [zForAffine_one x y hA]
    exact affineFromJacobian_one x y hx hy
  · have h0 : x = 0 ∧ y = 0 := by
      constructor
      · by_contra hc; exact hA (Or.inl hc)
      · by_contra hc; exact hA (Or.inr hc)
    rw [h0.1, h0.2, zForAffine_zero]
    exact affineFromJacobian_zero 0 0

theorem Add_left_identity (x y : ℤ) (hx : 0 ≤ x ∧ x < newsecp256k1.P)
    (hy : 0 ≤ y ∧ y < newsecp256k1.P) (pool : numPool) :
    (newsecp256k1.Add 0 0 x y pool).1 = some (x, y) := by
  rw [Add_of_jacobian 0 0 x y x y (zForAffine x y) pool
    (by rw [zForAffine_zero]; exact addJacobian_left_zero _ _ _ _ _ _)]
  exact affineFromJacobian_zForAffine x y hx hy

theorem Add_right_identity (x y : ℤ) (hx : 0 ≤ x ∧ x < newsecp256k1.P)
    (hy : 0 ≤ y ∧ y < newsecp256k1.P) (pool : numPool) :
    (newsecp256k1.Add x y 0 0 pool).1 = some (x, y) := by
  by_cases hA : x ≠ 0 ∨ y ≠ 0
  · rw [Add_of_jacobian x y 0 0 x y 1 pool
      (by rw [zForAffine_zero, zForAffine_one x y hA]
          exact addJacobian_right_zero _ _ _ _ _ _ one_ne_zero)]
    exact affineFromJacobian_one x y hx hy
  · have h0 : x = 0 ∧ y = 0 := by
      constructor
      · by_contra hc; exact hA (Or.inl hc)
      · by_contra hc; exact hA (Or.inr hc)
    rw [h0.1, h0.2]
    exact Add_left_identity 0 0 (by decide!) (by decide!) pool

/-- The public `Double` always returns a pair. -/
theorem Double_total (x y : ℤ) (pool : numPool) :
    ∃ r, (newsecp256k1.Double x y pool).1 = some r := by
  by_cases hA : x ≠ 0 ∨ y ≠ 0
  · obtain ⟨X, Y, Z, hJ, hZ, -⟩ := doubleJacobian_spec x y 1 one_ne_zero pool
    rw [Double_of_jacobian x y X Y Z pool (by rw [zForAffine_one x y hA]; exact hJ)]
    apply affineFromJacobian_total
    rw [hZ]
    exact double_z_dichotomy _ (emod_range _)
  · have h0 : x = 0 ∧ y = 0 := by
      constructor
      · by_contra hc; exact hA (Or.inl hc)
      · by_contra hc; exact hA (Or.inr hc)
    rw [h0.1, h0.2, Double_of_jacobian 0 0 0 0 0 pool
      (by rw [zForAffine_zero]; exact doubleJacobian_zero 0 0 pool)]
    exact ⟨_, affineFromJacobian_zero 0 0⟩

theorem Add_self_eq_Double (x y : ℤ) (pool pool' : numPool) :
    (newsecp256k1.Add x y x y pool').1 = (newsecp256k1.Double x y pool).1 := by
  by_cases hA : x ≠ 0 ∨ y ≠ 0
  · unfold secp256k1Curve.Add secp256k1Curve.Double
    simp only [zForAffine_one x y hA]
    rw [addJacobian_same x y 1 x y 1 pool' pool one_ne_zero one_ne_zero rfl rfl]
  · have h0 : x = 0 ∧ y = 0 := by
      constructor
      · by_contra hc; exact hA (Or.inl hc)
      · by_contra hc; exact hA (Or.inr hc)
    rw [h0.1, h0.2, Add_left_identity 0 0 (by decide!) (by decide!) pool',
      Double_of_jacobian 0 0 0 0 0 pool
        (by rw [zForAffine_zero]; exact doubleJacobian_zero 0 0 pool)]
    exact (affineFromJacobian_zero 0 0).symm

/-- C5: `(0, 0)` is neutral for the public `Add`: for every affine point with
coordinates in `[0, P)`, adding the identity on either side returns the point, and
identity plus identity is the identity. -/
theorem add_identity_neutral (x y : ℤ) (hx : 0 ≤ x ∧ x < newsecp256k1.P)
    (hy : 0 ≤ y ∧ y < newsecp256k1.P) (pool : numPool) :
    (newsecp256k1.Add x y 0 0 pool).1 = some (x, y) ∧
    (newsecp256k1.Add 0 0 x y pool).1 = some (x, y) ∧
    (newsecp256k1.Add 0 0 0 0 pool).1 = some (0, 0) :=
  ⟨Add_right_identity x y hx hy pool, Add_left_identity x y hx hy pool,
    Add_left_identity 0 0 (by decide!) (by decide!) pool⟩

theorem add_identity_neutral_witness :
    (0 ≤ newsecp256k1.Gx ∧ newsecp256k1.Gx < newsecp256k1.P) ∧
    (0 ≤ newsecp256k1.Gy ∧ newsecp256k1.Gy < newsecp256k1.P) ∧
    (newsecp256k1.Add newsecp256k1.Gx newsecp256k1.Gy 0 0 initPool).1 =
      some (newsecp256k1.Gx, newsecp256k1.Gy) ∧
    (newsecp256k1.Add 0 0 newsecp256k1.Gx newsecp256k1.Gy initPool).1 =
      some (newsecp256k1.Gx, newsecp256k1.Gy) ∧
    (newsecp256k1.Add 0 0 0 0 initPool).1 = some (0, 0) :=
  ⟨by decide!, by decide!,
    add_identity_neutral newsecp256k1.Gx newsecp256k1.Gy (by decide!) (by decide!) initPool⟩

/-- C7: for every affine point, the identity `(0, 0)` included, the public `Double`
and the public `Add` of the point with itself return the same pair (and both do
return one), whatever the pool states. -/
theorem double_eq_add_self (x y : ℤ) (pool pool' : numPool) :
    ∃ r : ℤ × ℤ, (newsecp256k1.Double x y pool).1 = some r ∧
      (newsecp256k1.Add x y x y pool').1 = some r := by
  obtain ⟨r, hr⟩ := Double_total x y pool
  exact ⟨r, hr, (Add_self_eq_Double x y pool pool').trans hr⟩

theorem not_or_ne_zero (x y : ℤ) (hA : ¬ (x ≠ 0 ∨ y ≠ 0)) : x = 0 ∧ y = 0 := by
  constructor
  · by_contra hc; exact hA (Or.inl hc)
  · by_contra hc; exact hA (Or.inr hc)

theorem ne_zero_of_isOnCurve (x y : ℤ) (h : newsecp256k1.IsOnCurve x y = true) :
    x ≠ 0 ∨ y ≠ 0 := by
  by_contra hA
  obtain ⟨hx0, hy0⟩ := not_or_ne_zero x y hA
  rw [hx0, hy0] at h
  exact absurd h (by decide!)

theorem cast_neg_emod (y : ℤ) :
    (((newsecp256k1.P - y) % newsecp256k1.P : ℤ) : ZMod fieldPrime) =
      -(y : ZMod fieldPrime) := by
  rw [P_eq, ZMod.intCast_mod]
  push_cast
  rw [ZMod.natCast_self, zero_sub]

/-- With equal normalised `x` and different normalised `y`, the general branch of
`addJacobian` yields `Z3 = 0`. -/
theorem addJacobian_inverse_z (x1 y1 z1 x2 y2 z2 : ℤ) (pool : numPool)
    (hz1 : z1 ≠ 0) (hz2 : z2 ≠ 0)
    (hh : x2 * (z1 * z1 % newsecp256k1.P) % newsecp256k1.P -
      x1 * (z2 * z2 % newsecp256k1.P) % newsecp256k1.P = 0)
    (ht : y2 * (z1 * (z1 * z1 % newsecp256k1.P) % newsecp256k1.P) % newsecp256k1.P -
      y1 * (z2 * (z2 * z2 % newsecp256k1.P) % newsecp256k1.P) % newsecp256k1.P ≠ 0) :
    (newsecp256k1.addJacobian x1 y1 z1 x2 y2 z2 pool).1.2.2 = 0 := by
  have hx := (addJacobian_xEqual_iff x1 z1 x2 z2).1 hh
  have hne : ¬ ((x2 : ZMod fieldPrime) * (z1 : ZMod fieldPrime) ^ 2 =
        (x1 : ZMod fieldPrime) * (z2 : ZMod fieldPrime) ^ 2 ∧
      (y2 : ZMod fieldPrime) * (z1 : ZMod fieldPrime) ^ 3 =
        (y1 : ZMod fieldPrime) * (z2 : ZMod fieldPrime) ^ 3) :=
    fun h => ht ((addJacobian_yEqual_iff y1 z1 y2 z2).2 h.2)
  obtain ⟨X, Y, Z, hJ, hZr, -, -, hZ⟩ := addJacobian_general x1 y1 z1 x2 y2 z2 pool hz1 hz2 hne
  rw [hJ]
  apply (cast_eq_zero_iff_of_range Z hZr).1
  rw [hZ, hx]
  ring

theorem Double_y_zero (x : ℤ) (pool : numPool) :
    (newsecp256k1.Double x 0 pool).1 = some (0, 0) := by
  by_cases hx0 : x = 0
  · rw [hx0, Double_of_jacobian 0 0 0 0 0 pool
      (by rw [zForAffine_zero]; exact doubleJacobian_zero 0 0 pool)]
    exact affineFromJacobian_zero 0 0
  · obtain ⟨X, Y, Z, hJ, hZ, -⟩ := doubleJacobian_spec x 0 1 one_ne_zero pool
    rw [Double_of_jacobian x 0 X Y Z pool
      (by rw [zForAffine_one x 0 (Or.inl hx0)]; exact hJ)]
    have hZ0 : Z = 0 := by
      rw [hZ, zero_mul, P_eq, Int.zero_emod, mul_zero]
    rw [hZ0]
    exact affineFromJacobian_zero X Y

/-- C6: for every affine point `(x, y)` with `y` in `[0, P)` (whatever `x`, so in
particular for coordinates in `[0, P)`), the public `Add` of the point and its negation `(x, (P - y) mod P)` returns the identity `(0, 0)`; and
`addJacobian` has no inverse branch: with equal normalised `x` (`h = 0`) and
different normalised `y` (`s1 ≠ s2`) its third output is `0`. -/
theorem add_negate_identity (x y : ℤ) (hy : 0 ≤ y ∧ y < newsecp256k1.P) (pool : numPool) :
    (newsecp256k1.Add x y x ((newsecp256k1.P - y) % newsecp256k1.P) pool).1 = some (0, 0) ∧
    ∀ (x1 y1 z1 x2 y2 z2 : ℤ) (pool' : numPool), z1 ≠ 0 → z2 ≠ 0 →
      x2 * (z1 * z1 % newsecp256k1.P) % newsecp256k1.P -
        x1 * (z2 * z2 % newsecp256k1.P) % newsecp256k1.P = 0 →
      y2 * (z1 * (z1 * z1 % newsecp256k1.P) % newsecp256k1.P) % newsecp256k1.P -
        y1 * (z2 * (z2 * z2 % newsecp256k1.P) % newsecp256k1.P) % newsecp256k1.P ≠ 0 →
      (newsecp256k1.addJacobian x1 y1 z1 x2 y2 z2 pool').1.2.2 = 0 := by
  haveI : Fact (Nat.Prime fieldPrime) := ⟨fieldPrime_prime⟩
  refine ⟨?_, fun x1 y1 z1 x2 y2 z2 pool' hz1 hz2 hh ht =>
    addJacobian_inverse_z x1 y1 z1 x2 y2 z2 pool' hz1 hz2 hh ht⟩
  by_cases hy0 : y = 0
  · have hneg : (newsecp256k1.P - y) % newsecp256k1.P = 0 := by
      rw [hy0, sub_zero, Int.emod_self]
    rw [hneg, hy0, Add_self_eq_Double x 0 pool pool]
    exact Double_y_zero x pool
  · have hyc : (y : ZMod fieldPrime) ≠ 0 := fun h =>
      hy0 ((cast_eq_zero_iff_of_range y hy).1 h)
    have hnegc := cast_neg_emod y
    have hneg0 : (newsecp256k1.P - y) % newsecp256k1.P ≠ 0 := by
      intro h
      rw [h] at hnegc
      apply hyc
      have : -(y : ZMod fieldPrime) = 0 := by rw [← hnegc]; simp
      exact neg_eq_zero.1 this
    have hne : ¬ ((x : ZMod fieldPrime) * ((1 : ℤ) : ZMod fieldPrime) ^ 2 =
          (x : ZMod fieldPrime) * ((1 : ℤ) : ZMod fieldPrime) ^ 2 ∧
        (((newsecp256k1.P - y) % newsecp256k1.P : ℤ) : ZMod fieldPrime) *
            ((1 : ℤ) : ZMod fieldPrime) ^ 3 =
          (y : ZMod fieldPrime) * ((1 : ℤ) : ZMod fieldPrime) ^ 3) := by
      rintro ⟨-, h⟩
      rw [hnegc] at h
      push_cast at h
      have h2 : (2 : ZMod fieldPrime) * (y : ZMod fieldPrime) = 0 := by
        linear_combination -h
      rcases mul_eq_zero.1 h2 with h3 | h3
      · exact two_cast_ne_zero h3
      · exact hyc h3
    obtain ⟨X, Y, Z, hJ, hZr, -, -, hZ⟩ :=
      addJacobian_general x y 1 x ((newsecp256k1.P - y) % newsecp256k1.P) 1 pool
        one_ne_zero one_ne_zero hne
    rw [Add_of_jacobian x y x ((newsecp256k1.P - y) % newsecp256k1.P) X Y Z pool
      (by rw [zForAffine_one x y (Or.inr hy0), zForAffine_one x _ (Or.inr hneg0)]; exact hJ)]
    have hZ0 : Z = 0 := by
      apply (cast_eq_zero_iff_of_range Z hZr).1
      rw [hZ]
      ring
    rw [hZ0]
    exact affineFromJacobian_zero X Y

theorem add_negate_identity_witness :
    (0 ≤ newsecp256k1.Gy ∧ newsecp256k1.Gy < newsecp256k1.P) ∧
    (newsecp256k1.Add newsecp256k1.Gx newsecp256k1.Gy newsecp256k1.Gx
      ((newsecp256k1.P - newsecp256k1.Gy) % newsecp256k1.P) initPool).1 = some (0, 0) :=
  ⟨by decide!,
    (add_negate_identity newsecp256k1.Gx newsecp256k1.Gy (by decide!) initPool).1⟩

theorem Double_closed (x y : ℤ) (hA : (x = 0 ∧ y = 0) ∨ newsecp256k1.IsOnCurve x y = true)
    (pool : numPool) :
    ∃ r : ℤ × ℤ, (newsecp256k1.Double x y pool).1 = some r ∧
      (r = (0, 0) ∨ newsecp256k1.IsOnCurve r.1 r.2 = true) := by
  rcases hA with ⟨hx0, hy0⟩ | hon
  · rw [hx0, hy0]
    exact ⟨(0, 0), Double_y_zero 0 pool, Or.inl rfl⟩
  · have hne := ne_zero_of_isOnCurve x y hon
    obtain ⟨X, Y, Z, hJ, hZ, hX, hY, hZc⟩ := doubleJacobian_spec x y 1 one_ne_zero pool
    rw [Double_of_jacobian x y X Y Z pool (by rw [zForAffine_one x y hne]; exact hJ)]
    have hdich : Z = 0 ∨ (Z : ZMod fieldPrime) ≠ 0 := by
      rw [hZ]
      exact double_z_dichotomy _ (emod_range _)
    rcases hdich with hZ0 | hZne
    · rw [hZ0]
      exact ⟨(0, 0), affineFromJacobian_zero X Y, Or.inl rfl⟩
    · have hcurve := tangent_on_curve (x : ZMod fieldPrime) (y : ZMod fieldPrime)
        ((isOnCurve_iff_cast x y).1 hon)
      have hjac : (Y : ZMod fieldPrime) ^ 2 =
          (X : ZMod fieldPrime) ^ 3 + 7 * (Z : ZMod fieldPrime) ^ 6 := by
        rw [hX, hY, hZc, Int.cast_one]
        exact hcurve
      obtain ⟨a, b, hres, hab⟩ := isOnCurve_of_jacobian X Y Z hZne hjac
      exact ⟨(a, b), hres, Or.inr hab⟩

theorem Add_closed (x1 y1 x2 y2 : ℤ)
    (hx1 : 0 ≤ x1 ∧ x1 < newsecp256k1.P) (hy1 : 0 ≤ y1 ∧ y1 < newsecp256k1.P)
    (hx2 : 0 ≤ x2 ∧ x2 < newsecp256k1.P) (hy2 : 0 ≤ y2 ∧ y2 < newsecp256k1.P)
    (hA : (x1 = 0 ∧ y1 = 0) ∨ newsecp256k1.IsOnCurve x1 y1 = true)
    (hB : (x2 = 0 ∧ y2 = 0) ∨ newsecp256k1.IsOnCurve x2 y2 = true) (pool : numPool) :
    ∃ r : ℤ × ℤ, (newsecp256k1.Add x1 y1 x2 y2 pool).1 = some r ∧
      (r = (0, 0) ∨ newsecp256k1.IsOnCurve r.1 r.2 = true) := by
  rcases hA with ⟨hx0, hy0⟩ | honA
  · rw [hx0, hy0]
    refine ⟨(x2, y2), Add_left_identity x2 y2 hx2 hy2 pool, ?_⟩
    rcases hB with ⟨hx0', hy0'⟩ | honB
    · left; rw [hx0', hy0']
    · right; exact honB
  rcases hB with ⟨hx0, hy0⟩ | honB
  · rw [hx0, hy0]
    exact ⟨(x1, y1), Add_right_identity x1 y1 hx1 hy1 pool, Or.inr honA⟩
  have hneA := ne_zero_of_isOnCurve x1 y1 honA
  have hneB := ne_zero_of_isOnCurve x2 y2 honB
  by_cases hsame : x2 = x1 ∧ y2 = y1
  · rw [hsame.1, hsame.2, Add_self_eq_Double x1 y1 pool pool]
    exact Double_closed x1 y1 (Or.inr honA) pool
  · have hne : ¬ ((x2 : ZMod fieldPrime) * ((1 : ℤ) : ZMod fieldPrime) ^ 2 =
          (x1 : ZMod fieldPrime) * ((1 : ℤ) : ZMod fieldPrime) ^ 2 ∧
        (y2 : ZMod fieldPrime) * ((1 : ℤ) : ZMod fieldPrime) ^ 3 =
          (y1 : ZMod fieldPrime) * ((1 : ℤ) : ZMod fieldPrime) ^ 3) := by
      rintro ⟨h1, h2⟩
      rw [Int.cast_one, one_pow, mul_one, mul_one] at h1 h2
      exact hsame ⟨eq_of_cast_eq x2 x1 hx2 hx1 h1, eq_of_cast_eq y2 y1 hy2 hy1 h2⟩
    obtain ⟨X, Y, Z, hJ, hZr, hX, hY, hZc⟩ :=
      addJacobian_general x1 y1 1 x2 y2 1 pool one_ne_zero one_ne_zero hne
    rw [Add_of_jacobian x1 y1 x2 y2 X Y Z pool
      (by rw [zForAffine_one x1 y1 hneA, zForAffine_one x2 y2 hneB]; exact hJ)]
    by_cases hZ0 : Z = 0
    · rw [hZ0]
      exact ⟨(0, 0), affineFromJacobian_zero X Y, Or.inl rfl⟩
    · have hZne : (Z : ZMod fieldPrime) ≠ 0 := fun h =>
        hZ0 ((cast_eq_zero_iff_of_range Z hZr).1 h)
      have hcurve := chord_on_curve (x1 : ZMod fieldPrime) (y1 : ZMod fieldPrime)
        (x2 : ZMod fieldPrime) (y2 : ZMod fieldPrime)
        ((isOnCurve_iff_cast x1 y1).1 honA) ((isOnCurve_iff_cast x2 y2).1 honB)
      have hjac : (Y : ZMod fieldPrime) ^ 2 =
          (X : ZMod fieldPrime) ^ 3 + 7 * (Z : ZMod fieldPrime) ^ 6 := by
        rw [hX, hY, hZc, Int.cast_one, one_pow, one_pow, mul_one, mul_one, mul_one, mul_one]
        exact hcurve
      obtain ⟨a, b, hres, hab⟩ := isOnCurve_of_jacobian X Y Z hZne hjac
      exact ⟨(a, b), hres, Or.inr hab⟩

/-- C9 (closure): for affine points `A`, `B` with coordinates in `[0, P)`, each on the
curve or equal to the identity `(0, 0)`, the public `Add A B` returns a pair that is
`(0, 0)` or on the curve, and so does the public `Double A`. -/
theorem add_double_closed (x1 y1 x2 y2 : ℤ)
    (hx1 : 0 ≤ x1 ∧ x1 < newsecp256k1.P) (hy1 : 0 ≤ y1 ∧ y1 < newsecp256k1.P)
    (hx2 : 0 ≤ x2 ∧ x2 < newsecp256k1.P) (hy2 : 0 ≤ y2 ∧ y2 < newsecp256k1.P)
    (hA : (x1 = 0 ∧ y1 = 0) ∨ newsecp256k1.IsOnCurve x1 y1 = true)
    (hB : (x2 = 0 ∧ y2 = 0) ∨ newsecp256k1.IsOnCurve x2 y2 = true) (pool : numPool) :
    (∃ r : ℤ × ℤ, (newsecp256k1.Add x1 y1 x2 y2 pool).1 = some r ∧
      (r = (0, 0) ∨ newsecp256k1.IsOnCurve r.1 r.2 = true)) ∧
    (∃ r : ℤ × ℤ, (newsecp256k1.Double x1 y1 pool).1 = some r ∧
      (r = (0, 0) ∨ newsecp256k1.IsOnCurve r.1 r.2 = true)) :=
  ⟨Add_closed x1 y1 x2 y2 hx1 hy1 hx2 hy2 hA hB pool, Double_closed x1 y1 hA pool⟩

theorem add_double_closed_witness :
    (0 ≤ newsecp256k1.Gx ∧ newsecp256k1.Gx < newsecp256k1.P) ∧
    (0 ≤ newsecp256k1.Gy ∧ newsecp256k1.Gy < newsecp256k1.P) ∧
    (0 ≤ (0xC6047F9441ED7D6D3045406E95C07CD85C778E4B8CEF3CA7ABAC09B95C709EE5 : ℤ) ∧
      (0xC6047F9441ED7D6D3045406E95C07CD85C778E4B8CEF3CA7ABAC09B95C709EE5 : ℤ) <
        newsecp256k1.P) ∧
    (0 ≤ (0x1AE168FEA63DC339A3C58419466CEAEEF7F632653266D0E1236431A950CFE52A : ℤ) ∧
      (0x1AE168FEA63DC339A3C58419466CEAEEF7F632653266D0E1236431A950CFE52A : ℤ) <
        newsecp256k1.P) ∧
    newsecp256k1.IsOnCurve newsecp256k1.Gx newsecp256k1.Gy = true ∧
    newsecp256k1.IsOnCurve 0xC6047F9441ED7D6D3045406E95C07CD85C778E4B8CEF3CA7ABAC09B95C709EE5
      0x1AE168FEA63DC339A3C58419466CEAEEF7F632653266D0E1236431A950CFE52A = true ∧
    ((∃ r : ℤ × ℤ, (newsecp256k1.Add newsecp256k1.Gx newsecp256k1.Gy
        0xC6047F9441ED7D6D3045406E95C07CD85C778E4B8CEF3CA7ABAC09B95C709EE5
        0x1AE168FEA63DC339A3C58419466CEAEEF7F632653266D0E1236431A950CFE52A initPool).1 = some r ∧
      (r = (0, 0) ∨ newsecp256k1.IsOnCurve r.1 r.2 = true)) ∧
    (∃ r : ℤ × ℤ, (newsecp256k1.Double newsecp256k1.Gx newsecp256k1.Gy initPool).1 = some r ∧
      (r = (0, 0) ∨ newsecp256k1.IsOnCurve r.1 r.2 = true))) :=
  ⟨by decide!, by decide!, by decide!, by decide!, by decide!, by decide!,
    add_double_closed newsecp256k1.Gx newsecp256k1.Gy
      0xC6047F9441ED7D6D3045406E95C07CD85C778E4B8CEF3CA7ABAC09B95C709EE5
      0x1AE168FEA63DC339A3C58419466CEAEEF7F632653266D0E1236431A950CFE52A
      (by decide!) (by decide!) (by decide!) (by decide!)
      (Or.inr (by decide!)) (Or.inr (by decide!)) initPool⟩

theorem Add_general_comm (x1 y1 x2 y2 : ℤ)
    (hx1 : 0 ≤ x1 ∧ x1 < newsecp256k1.P) (hy1 : 0 ≤ y1 ∧ y1 < newsecp256k1.P)
    (hx2 : 0 ≤ x2 ∧ x2 < newsecp256k1.P) (hy2 : 0 ≤ y2 ∧ y2 < newsecp256k1.P)
    (hneA : x1 ≠ 0 ∨ y1 ≠ 0) (hneB : x2 ≠ 0 ∨ y2 ≠ 0)
    (hdiff : ¬ (x2 = x1 ∧ y2 = y1)) (pool pool' : numPool) :
    ∃ r : ℤ × ℤ, (newsecp256k1.Add x1 y1 x2 y2 pool).1 = some r ∧
      (newsecp256k1.Add x2 y2 x1 y1 pool').1 = some r := by
  have hne : ¬ ((x2 : ZMod fieldPrime) * ((1 : ℤ) : ZMod fieldPrime) ^ 2 =
        (x1 : ZMod fieldPrime) * ((1 : ℤ) : ZMod fieldPrime) ^ 2 ∧
      (y2 : ZMod fieldPrime) * ((1 : ℤ) : ZMod fieldPrime) ^ 3 =
        (y1 : ZMod fieldPrime) * ((1 : ℤ) : ZMod fieldPrime) ^ 3) := by
    rintro ⟨h1, h2⟩
    rw [Int.cast_one, one_pow, mul_one, mul_one] at h1 h2
    exact hdiff ⟨eq_of_cast_eq x2 x1 hx2 hx1 h1, eq_of_cast_eq y2 y1 hy2 hy1 h2⟩
  have hne' : ¬ ((x1 : ZMod fieldPrime) * ((1 : ℤ) : ZMod fieldPrime) ^ 2 =
        (x2 : ZMod fieldPrime) * ((1 : ℤ) : ZMod fieldPrime) ^ 2 ∧
      (y1 : ZMod fieldPrime) * ((1 : ℤ) : ZMod fieldPrime) ^ 3 =
        (y2 : ZMod fieldPrime) * ((1 : ℤ) : ZMod fieldPrime) ^ 3) :=
    fun h => hne ⟨h.1.symm, h.2.symm⟩
  obtain ⟨X, Y, Z, hJ, hZr, hX, hY, hZc⟩ :=
    addJacobian_general x1 y1 1 x2 y2 1 pool one_ne_zero one_ne_zero hne
  obtain ⟨X', Y', Z', hJ', hZr', hX', hY', hZc'⟩ :=
    addJacobian_general x2 y2 1 x1 y1 1 pool' one_ne_zero one_ne_zero hne'
  rw [Add_of_jacobian x1 y1 x2 y2 X Y Z pool
      (by rw [zForAffine_one x1 y1 hneA, zForAffine_one x2 y2 hneB]; exact hJ),
    Add_of_jacobian x2 y2 x1 y1 X' Y' Z' pool'
      (by rw [zForAffine_one x1 y1 hneA, zForAffine_one x2 y2 hneB]; exact hJ')]
  have hXX : (X' : ZMod fieldPrime) = (X : ZMod fieldPrime) := by
    rw [hX', hX]; exact chordX_swap _ _ _ _
  have hYY : (Y' : ZMod fieldPrime) = -(Y : ZMod fieldPrime) := by
    rw [hY', hY]; exact chordY_swap _ _ _ _
  have hZZ : (Z' : ZMod fieldPrime) = -(Z : ZMod fieldPrime) := by
    rw [hZc', hZc]; ring
  by_cases hZ0 : Z = 0
  · have hZ0' : Z' = 0 := by
      apply (cast_eq_zero_iff_of_range Z' hZr').1
      rw [hZZ, hZ0]; simp
    rw [hZ0, hZ0']
    exact ⟨(0, 0), affineFromJacobian_zero X Y, affineFromJacobian_zero X' Y'⟩
  · have hZne : (Z : ZMod fieldPrime) ≠ 0 := fun h =>
      hZ0 ((cast_eq_zero_iff_of_range Z hZr).1 h)
    have hZne' : (Z' : ZMod fieldPrime) ≠ 0 := by
      rw [hZZ]; exact neg_ne_zero.2 hZne
    obtain ⟨r, hr⟩ := affineFromJacobian_total X Y Z (Or.inr hZne)
    refine ⟨r, hr, ?_⟩
    rw [← affineFromJacobian_congr X Y Z X' Y' Z' hZne hZne'
      (by rw [hXX, hZZ]; ring) (by rw [hYY, hZZ]; ring)]
    exact hr

/-- C8: the public `Add` is commutative: for affine points with coordinates in
`[0, P)`, `Add(x1, y1, x2, y2)` and `Add(x2, y2, x1, y1)` return the same pair of
integers (and both return one), whatever the pool states. -/
theorem add_commutative (x1 y1 x2 y2 : ℤ)
    (hx1 : 0 ≤ x1 ∧ x1 < newsecp256k1.P) (hy1 : 0 ≤ y1 ∧ y1 < newsecp256k1.P)
    (hx2 : 0 ≤ x2 ∧ x2 < newsecp256k1.P) (hy2 : 0 ≤ y2 ∧ y2 < newsecp256k1.P)
    (pool pool' : numPool) :
    ∃ r : ℤ × ℤ, (newsecp256k1.Add x1 y1 x2 y2 pool).1 = some r ∧
      (newsecp256k1.Add x2 y2 x1 y1 pool').1 = some r := by
  by_cases hA : x1 ≠ 0 ∨ y1 ≠ 0
  · by_cases hB : x2 ≠ 0 ∨ y2 ≠ 0
    · by_cases hsame : x2 = x1 ∧ y2 = y1
      · rw [hsame.1, hsame.2]
        obtain ⟨r, hr⟩ := Double_total x1 y1 pool
        exact ⟨r, (Add_self_eq_Double x1 y1 pool pool).trans hr,
          (Add_self_eq_Double x1 y1 pool pool').trans hr⟩
      · exact Add_general_comm x1 y1 x2 y2 hx1 hy1 hx2 hy2 hA hB hsame pool pool'
    · obtain ⟨h1, h2⟩ := not_or_ne_zero x2 y2 hB
      rw [h1, h2]
      exact ⟨(x1, y1), Add_right_identity x1 y1 hx1 hy1 pool,
        Add_left_identity x1 y1 hx1 hy1 pool'⟩
  · obtain ⟨h1, h2⟩ := not_or_ne_zero x1 y1 hA
    rw [h1, h2]
    exact ⟨(x2, y2), Add_left_identity x2 y2 hx2 hy2 pool,
      Add_right_identity x2 y2 hx2 hy2 pool'⟩

theorem add_commutative_witness :
    (0 ≤ newsecp256k1.Gx ∧ newsecp256k1.Gx < newsecp256k1.P) ∧
    (0 ≤ newsecp256k1.Gy ∧ newsecp256k1.Gy < newsecp256k1.P) ∧
    (0 ≤ (0xC6047F9441ED7D6D3045406E95C07CD85C778E4B8CEF3CA7ABAC09B95C709EE5 : ℤ) ∧
      (0xC6047F9441ED7D6D3045406E95C07CD85C778E4B8CEF3CA7ABAC09B95C709EE5 : ℤ) <
        newsecp256k1.P) ∧
    (0 ≤ (0x1AE168FEA63DC339A3C58419466CEAEEF7F632653266D0E1236431A950CFE52A : ℤ) ∧
      (0x1AE168FEA63DC339A3C58419466CEAEEF7F632653266D0E1236431A950CFE52A : ℤ) <
        newsecp256k1.P) ∧
    ∃ r : ℤ × ℤ, (newsecp256k1.Add newsecp256k1.Gx newsecp256k1.Gy
        0xC6047F9441ED7D6D3045406E95C07CD85C778E4B8CEF3CA7ABAC09B95C709EE5
        0x1AE168FEA63DC339A3C58419466CEAEEF7F632653266D0E1236431A950CFE52A initPool).1 = some r ∧
      (newsecp256k1.Add 0xC6047F9441ED7D6D3045406E95C07CD85C778E4B8CEF3CA7ABAC09B95C709EE5
        0x1AE168FEA63DC339A3C58419466CEAEEF7F632653266D0E1236431A950CFE52A
        newsecp256k1.Gx newsecp256k1.Gy initPool).1 = some r :=
  ⟨by decide!, by decide!, by decide!, by decide!,
    add_commutative newsecp256k1.Gx newsecp256k1.Gy
      0xC6047F9441ED7D6D3045406E95C07CD85C778E4B8CEF3CA7ABAC09B95C709EE5
      0x1AE168FEA63DC339A3C58419466CEAEEF7F632653266D0E1236431A950CFE52A
      (by decide!) (by decide!) (by decide!) (by decide!) initPool initPool⟩

/-! ## Leading zero bytes and degenerate scalars -/

theorem doubleJacobian_zero_pool (curve : secp256k1Curve) (x y : ℤ) (pool : numPool) :
    curve.doubleJacobian x y 0 pool = ((0, 0, 0), pool) := by
  unfold secp256k1Curve.doubleJacobian
  rw [if_pos rfl]

theorem scalarMultBits_zero_byte (curve : secp256k1Curve) (Bx By Bz : ℤ) (n : ℕ)
    (pool : numPool) :
    curve.scalarMultBits Bx By Bz n 0 ((0, 0, 0), pool) = ((0, 0, 0), pool) := by
  induction n with
  | zero => rfl
  | succ n ih =>
    simp only [secp256k1Curve.scalarMultBits, doubleJacobian_zero_pool]
    have h1 : ¬ ((0 : ℕ) &&& 0x80 = 0x80) := by decide
    have h2 : ((0 : ℕ) <<< 1) % 256 = 0 := by decide
    rw [if_neg h1, h2]
    exact ih

theorem scalarMultFold_zeros (curve : secp256k1Curve) (Bx By Bz : ℤ) (n : ℕ)
    (pool : numPool) :
    (List.replicate n 0).foldl (fun acc byte => curve.scalarMultBits Bx By Bz 8 byte acc)
      ((0, 0, 0), pool) = ((0, 0, 0), pool) := by
  induction n with
  | zero => rfl
  | succ n ih =>
    rw [List.replicate_succ, List.foldl_cons, scalarMultBits_zero_byte]
    exact ih

theorem ScalarMult_leading_zeros (curve : secp256k1Curve) (Bx By : ℤ) (k : List ℕ) (n : ℕ)
    (pool : numPool) :
    curve.ScalarMult Bx By (List.replicate n 0 ++ k) pool = curve.ScalarMult Bx By k pool := by
  unfold secp256k1Curve.ScalarMult
  simp only [List.foldl_append, scalarMultFold_zeros]

theorem scalarMultBits_one_byte (curve : secp256k1Curve) (Bx By : ℤ) (pool : numPool) :
    curve.scalarMultBits Bx By 1 8 1 ((0, 0, 0), pool) = ((Bx, By, 1), pool) := by
  rfl

theorem bytesToNat_append (k : List ℕ) (b : ℕ) :
    bytesToNat (k ++ [b]) = bytesToNat k * 256 + b := by
  unfold bytesToNat
  rw [List.foldl_append]
  rfl

theorem bytesToNat_eq_zero (k : List ℕ) (h : bytesToNat k = 0) :
    k = List.replicate k.length 0 := by
  induction k using List.reverseRecOn with
  | nil => rfl
  | append_singleton l b ih =>
    rw [bytesToNat_append] at h
    have hb : b = 0 := by omega
    have hl : bytesToNat l = 0 := by omega
    rw [List.length_append, List.length_singleton, List.replicate_succ', ← ih hl, hb]

theorem bytesToNat_eq_one (k : List ℕ) (h : bytesToNat k = 1) :
    ∃ n : ℕ, k = List.replicate n 0 ++ [1] := by
  induction k using List.reverseRecOn with
  | nil => exact absurd h (by decide)
  | append_singleton l b _ =>
    rw [bytesToNat_append] at h
    have hb : b = 1 := by omega
    have hl : bytesToNat l = 0 := by omega
    exact ⟨l.length, by rw [← bytesToNat_eq_zero l hl, hb]⟩

theorem ScalarMult_zero_scalar (Bx By : ℤ) (k : List ℕ) (h : bytesToNat k = 0)
    (pool : numPool) :
    newsecp256k1.ScalarMult Bx By k pool = (some (0, 0), pool) := by
  have hk := bytesToNat_eq_zero k h
  have h0 := ScalarMult_leading_zeros newsecp256k1 Bx By [] k.length pool
  rw [List.append_nil, ← hk] at h0
  rw [h0]
  rfl

theorem ScalarMult_one_scalar (Bx By : ℤ) (hx : 0 ≤ Bx ∧ Bx < newsecp256k1.P)
    (hy : 0 ≤ By ∧ By < newsecp256k1.P) (k : List ℕ) (h : bytesToNat k = 1)
    (pool : numPool) :
    newsecp256k1.ScalarMult Bx By k pool = (some (Bx, By), pool) := by
  obtain ⟨n, hk⟩ := bytesToNat_eq_one k h
  rw [hk, ScalarMult_leading_zeros]
  unfold secp256k1Curve.ScalarMult
  simp only [List.foldl_cons, List.foldl_nil, scalarMultBits_one_byte]
  rw [affineFromJacobian_one Bx By hx hy]

theorem bytesFold_acc (t : List ℕ) :
    ∀ a : ℕ, t.foldl (fun acc b => acc * 256 + b) a = a * 256 ^ t.length + bytesToNat t := by
  induction t with
  | nil => intro a; simp [bytesToNat]
  | cons h t ih =>
    intro a
    unfold bytesToNat
    rw [List.foldl_cons, List.foldl_cons, ih (a * 256 + h), ih (0 * 256 + h), List.length_cons]
    ring

theorem bytesToNat_cons (h : ℕ) (t : List ℕ) :
    bytesToNat (h :: t) = h * 256 ^ t.length + bytesToNat t := by
  have := bytesFold_acc t (0 * 256 + h)
  unfold bytesToNat at this ⊢
  rw [List.foldl_cons, this]
  ring

theorem bytesToNat_lt (t : List ℕ) (ht : ∀ b ∈ t, b < 256) :
    bytesToNat t < 256 ^ t.length := by
  induction t with
  | nil => simp [bytesToNat]
  | cons h t ih =>
    rw [bytesToNat_cons, List.length_cons, pow_succ]
    have h1 : h < 256 := ht h (List.mem_cons_self h t)
    have h2 := ih (fun b hb => ht b (List.mem_cons_of_mem h hb))
    nlinarith

theorem bytesToNat_replicate_zero_append (n : ℕ) (k : List ℕ) :
    bytesToNat (List.replicate n 0 ++ k) = bytesToNat k := by
  induction n with
  | zero => rfl
  | succ n ih =>
    rw [List.replicate_succ, List.cons_append, bytesToNat_cons, ih]
    simp

theorem bytesToNat_injective_of_length (t : List ℕ) :
    ∀ t' : List ℕ, t.length = t'.length → (∀ b ∈ t, b < 256) → (∀ b ∈ t', b < 256) →
      bytesToNat t = bytesToNat t' → t = t' := by
  induction t with
  | nil =>
    intro t' hlen _ _ _
    exact (List.length_eq_zero.1 hlen.symm).symm
  | cons h t ih =>
    intro t' hlen ht ht' hv
    cases t' with
    | nil => simp at hlen
    | cons h' t' =>
      have hl : t.length = t'.length := by simpa using hlen
      have b1 := bytesToNat_lt t (fun b hb => ht b (List.mem_cons_of_mem h hb))
      have b2 := bytesToNat_lt t' (fun b hb => ht' b (List.mem_cons_of_mem h' hb))
      rw [bytesToNat_cons, bytesToNat_cons, hl] at hv
      rw [hl] at b1
      have hpos : 0 < 256 ^ t'.length := pow_pos (by norm_num) _
      have hh : h = h' := by
        have e1 : (h * 256 ^ t'.length + bytesToNat t) / 256 ^ t'.length = h := by
          rw [Nat.add_comm, Nat.add_mul_div_right _ _ hpos, Nat.div_eq_of_lt b1, zero_add]
        have e2 : (h' * 256 ^ t'.length + bytesToNat t') / 256 ^ t'.length = h' := by
          rw [Nat.add_comm, Nat.add_mul_div_right _ _ hpos, Nat.div_eq_of_lt b2, zero_add]
        rw [← e1, ← e2, hv]
      have hb : bytesToNat t = bytesToNat t' := by
        rw [hh] at hv
        exact Nat.add_left_cancel hv
      rw [hh, ih t' hl (fun b hb' => ht b (List.mem_cons_of_mem h hb'))
        (fun b hb' => ht' b (List.mem_cons_of_mem h' hb')) hb]

theorem ScalarMult_same_integer_le (curve : secp256k1Curve) (Bx By : ℤ) (k k' : List ℕ)
    (hk : ∀ b ∈ k, b < 256) (hk' : ∀ b ∈ k', b < 256) (hv : bytesToNat k = bytesToNat k')
    (hlen : k.length ≤ k'.length) (pool : numPool) :
    curve.ScalarMult Bx By k pool = curve.ScalarMult Bx By k' pool := by
  have hpad : List.replicate (k'.length - k.length) 0 ++ k = k' := by
    apply bytesToNat_injective_of_length
    · rw [List.length_append, List.length_replicate]; omega
    · intro b hb
      rcases List.mem_append.1 hb with h1 | h1
      · rw [(List.mem_replicate.1 h1).2]; norm_num
      · exact hk b h1
    · exact hk'
    · rw [bytesToNat_replicate_zero_append, hv]
  rw [← hpad, ScalarMult_leading_zeros]

/-- C11: degenerate scalars.  For every affine point `B` with coordinates in `[0, P)`,
`ScalarMult(B, k)` returns `B` when `k` encodes 1 (for instance the single byte `0x01`)
and `(0, 0)` when `k` encodes 0 (the empty sequence or any all-zero sequence); the pool
is left as it was. -/
theorem scalarMult_degenerate (Bx By : ℤ) (hx : 0 ≤ Bx ∧ Bx < newsecp256k1.P)
    (hy : 0 ≤ By ∧ By < newsecp256k1.P) (pool : numPool) :
    (∀ k : List ℕ, bytesToNat k = 1 →
      newsecp256k1.ScalarMult Bx By k pool = (some (Bx, By), pool)) ∧
    newsecp256k1.ScalarMult Bx By [0x01] pool = (some (Bx, By), pool) ∧
    (∀ k : List ℕ, bytesToNat k = 0 →
      newsecp256k1.ScalarMult Bx By k pool = (some (0, 0), pool)) ∧
    newsecp256k1.ScalarMult Bx By [] pool = (some (0, 0), pool) ∧
    (∀ n : ℕ, newsecp256k1.ScalarMult Bx By (List.replicate n 0) pool = (some (0, 0), pool)) :=
  ⟨fun k h => ScalarMult_one_scalar Bx By hx hy k h pool,
    ScalarMult_one_scalar Bx By hx hy [0x01] (by decide) pool,
    fun k h => ScalarMult_zero_scalar Bx By k h pool,
    ScalarMult_zero_scalar Bx By [] (by decide) pool,
    fun n => ScalarMult_zero_scalar Bx By (List.replicate n 0)
      (by have := bytesToNat_replicate_zero_append n []; simpa [bytesToNat] using this) pool⟩

theorem scalarMult_degenerate_witness :
    (0 ≤ newsecp256k1.Gx ∧ newsecp256k1.Gx < newsecp256k1.P) ∧
    (0 ≤ newsecp256k1.Gy ∧ newsecp256k1.Gy < newsecp256k1.P) ∧
    bytesToNat [0x00, 0x01] = 1 ∧
    newsecp256k1.ScalarMult newsecp256k1.Gx newsecp256k1.Gy [0x00, 0x01] initPool =
      (some (newsecp256k1.Gx, newsecp256k1.Gy), initPool) ∧
    bytesToNat [0x00, 0x00] = 0 ∧
    newsecp256k1.ScalarMult newsecp256k1.Gx newsecp256k1.Gy [0x00, 0x00] initPool =
      (some (0, 0), initPool) :=
  ⟨by decide!, by decide!, by decide,
    (scalarMult_degenerate newsecp256k1.Gx newsecp256k1.Gy (by decide!) (by decide!)
      initPool).1 [0x00, 0x01] (by decide),
    by decide,
    (scalarMult_degenerate newsecp256k1.Gx newsecp256k1.Gy (by decide!) (by decide!)
      initPool).2.2.1 [0x00, 0x00] (by decide)⟩

/-- C14: `ScalarMult` depends only on the unsigned big-endian integer that `k` encodes:
`n` zero bytes in front of `k` change neither the result nor the pool, and two byte
sequences (bytes below 256) of any lengths that encode the same integer give the same
result. -/
theorem scalarMult_integer_only :
    (∀ (Bx By : ℤ) (k : List ℕ) (n : ℕ) (pool : numPool),
      newsecp256k1.ScalarMult Bx By (List.replicate n 0 ++ k) pool =
        newsecp256k1.ScalarMult Bx By k pool) ∧
    (∀ (Bx By : ℤ) (k k' : List ℕ) (pool : numPool),
      (∀ b ∈ k, b < 256) → (∀ b ∈ k', b < 256) → bytesToNat k = bytesToNat k' →
      newsecp256k1.ScalarMult Bx By k pool = newsecp256k1.ScalarMult Bx By k' pool) := by
  refine ⟨fun Bx By k n pool => ScalarMult_leading_zeros newsecp256k1 Bx By k n pool,
    fun Bx By k k' pool hk hk' hv => ?_⟩
  rcases Nat.le_total k.length k'.length with hlen | hlen
  · exact ScalarMult_same_integer_le newsecp256k1 Bx By k k' hk hk' hv hlen pool
  · exact (ScalarMult_same_integer_le newsecp256k1 Bx By k' k hk' hk hv.symm hlen pool).symm

theorem scalarMult_integer_only_witness :
    (∀ b ∈ [0x00, 0x00, 0x03, 0x07], b < 256) ∧ (∀ b ∈ [0x03, 0x07], b < 256) ∧
    bytesToNat [0x00, 0x00, 0x03, 0x07] = bytesToNat [0x03, 0x07] ∧
    newsecp256k1.ScalarMult newsecp256k1.Gx newsecp256k1.Gy [0x00, 0x00, 0x03, 0x07] initPool =
      newsecp256k1.ScalarMult newsecp256k1.Gx newsecp256k1.Gy [0x03, 0x07] initPool :=
  ⟨by decide, by decide, by decide,
    scalarMult_integer_only.2 newsecp256k1.Gx newsecp256k1.Gy [0x00, 0x00, 0x03, 0x07]
      [0x03, 0x07] initPool (by decide) (by decide) (by decide)⟩

/-! ## The value handed to the modular inverse -/

theorem not_dvd_iff_cast_ne_zero (Z : ℤ) :
    ¬ newsecp256k1.P ∣ Z ↔ (Z : ZMod fieldPrime) ≠ 0 := by
  rw [P_eq, ← ZMod.intCast_zmod_eq_zero_iff_dvd]

theorem doubleJacobian_z_ok (x y z : ℤ) (pool : numPool) :
    (newsecp256k1.doubleJacobian x y z pool).1.2.2 = 0 ∨
      (((newsecp256k1.doubleJacobian x y z pool).1.2.2 : ℤ) : ZMod fieldPrime) ≠ 0 := by
  by_cases hz : z = 0
  · left
    rw [hz, doubleJacobian_zero]
  · obtain ⟨X, Y, Z, hJ, hZ, -⟩ := doubleJacobian_spec x y z hz pool
    rw [hJ]
    show Z = 0 ∨ (Z : ZMod fieldPrime) ≠ 0
    rw [hZ]
    exact double_z_dichotomy _ (emod_range _)

theorem addJacobian_z_ok (x1 y1 z1 x2 y2 z2 : ℤ) (pool : numPool)
    (h1 : z1 = 0 ∨ (z1 : ZMod fieldPrime) ≠ 0) (h2 : z2 = 0 ∨ (z2 : ZMod fieldPrime) ≠ 0) :
    (newsecp256k1.addJacobian x1 y1 z1 x2 y2 z2 pool).1.2.2 = 0 ∨
      (((newsecp256k1.addJacobian x1 y1 z1 x2 y2 z2 pool).1.2.2 : ℤ) : ZMod fieldPrime) ≠ 0 := by
  by_cases hz1 : z1 = 0
  · rw [hz1, addJacobian_left_zero]
    exact h2
  by_cases hz2 : z2 = 0
  · rw [hz2, addJacobian_right_zero _ _ _ _ _ _ hz1]
    exact h1
  by_cases hsame : (x2 : ZMod fieldPrime) * (z1 : ZMod fieldPrime) ^ 2 =
        (x1 : ZMod fieldPrime) * (z2 : ZMod fieldPrime) ^ 2 ∧
      (y2 : ZMod fieldPrime) * (z1 : ZMod fieldPrime) ^ 3 =
        (y1 : ZMod fieldPrime) * (z2 : ZMod fieldPrime) ^ 3
  · rw [addJacobian_same x1 y1 z1 x2 y2 z2 pool pool hz1 hz2 hsame.1 hsame.2]
    exact doubleJacobian_z_ok x1 y1 z1 pool
  · obtain ⟨X, Y, Z, hJ, hZr, -⟩ := addJacobian_general x1 y1 z1 x2 y2 z2 pool hz1 hz2 hsame
    rw [hJ]
    show Z = 0 ∨ (Z : ZMod fieldPrime) ≠ 0
    by_cases hZ0 : Z = 0
    · exact Or.inl hZ0
    · exact Or.inr (fun h => hZ0 ((cast_eq_zero_iff_of_range Z hZr).1 h))

theorem one_z_ok : (1 : ℤ) = 0 ∨ ((1 : ℤ) : ZMod fieldPrime) ≠ 0 :=
  Or.inr (cast_ne_zero_of_emod 1 (by decide!))

theorem zForAffine_z_ok (x y : ℤ) :
    zForAffine x y = 0 ∨ ((zForAffine x y : ℤ) : ZMod fieldPrime) ≠ 0 := by
  unfold zForAffine
  split_ifs
  · exact one_z_ok
  · exact Or.inl rfl

theorem scalarMultBits_z_ok (Bx By : ℤ) (n : ℕ) :
    ∀ (byte : ℕ) (acc : (ℤ × ℤ × ℤ) × numPool),
      (acc.1.2.2 = 0 ∨ ((acc.1.2.2 : ℤ) : ZMod fieldPrime) ≠ 0) →
      ((newsecp256k1.scalarMultBits Bx By 1 n byte acc).1.2.2 = 0 ∨
        (((newsecp256k1.scalarMultBits Bx By 1 n byte acc).1.2.2 : ℤ) : ZMod fieldPrime) ≠ 0) := by
  induction n with
  | zero => intro byte acc h; exact h
  | succ n ih =>
    intro byte acc _
    simp only [secp256k1Curve.scalarMultBits]
    apply ih
    split_ifs
    · exact addJacobian_z_ok _ _ _ _ _ _ _ one_z_ok (doubleJacobian_z_ok _ _ _ _)
    · exact doubleJacobian_z_ok _ _ _ _

theorem scalarMultFold_z_ok (Bx By : ℤ) (k : List ℕ) :
    ∀ acc : (ℤ × ℤ × ℤ) × numPool,
      (acc.1.2.2 = 0 ∨ ((acc.1.2.2 : ℤ) : ZMod fieldPrime) ≠ 0) →
      ((k.foldl (fun a byte => newsecp256k1.scalarMultBits Bx By 1 8 byte a) acc).1.2.2 = 0 ∨
        (((k.foldl (fun a byte => newsecp256k1.scalarMultBits Bx By 1 8 byte a) acc).1.2.2 : ℤ) :
          ZMod fieldPrime) ≠ 0) := by
  induction k with
  | nil => intro acc h; exact h
  | cons b k ih =>
    intro acc h
    rw [List.foldl_cons]
    exact ih _ (scalarMultBits_z_ok Bx By 8 b acc h)

theorem affineFromJacobian_range (X Y Z x y : ℤ)
    (h : newsecp256k1.affineFromJacobian X Y Z = some (x, y)) :
    (0 ≤ x ∧ x < newsecp256k1.P) ∧ (0 ≤ y ∧ y < newsecp256k1.P) := by
  unfold secp256k1Curve.affineFromJacobian at h
  by_cases hz : Z = 0
  · rw [if_pos hz] at h
    have hxy : ((0 : ℤ), (0 : ℤ)) = (x, y) := Option.some.inj h
    have hx0 : x = 0 := (congrArg Prod.fst hxy).symm
    have hy0 : y = 0 := (congrArg Prod.snd hxy).symm
    rw [hx0, hy0]
    exact ⟨by decide!, by decide!⟩
  · rw [if_neg hz] at h
    cases hinv : ModInverse Z newsecp256k1.P with
    | none => rw [hinv] at h; exact absurd h (by simp)
    | some w =>
      rw [hinv] at h
      have hxy := Option.some.inj h
      have hx0 := (congrArg Prod.fst hxy).symm
      have hy0 := (congrArg Prod.snd hxy).symm
      simp only at hx0 hy0
      rw [hx0, hy0]
      exact ⟨emod_range _, emod_range _⟩

theorem affineFromJacobian_total_range (X Y Z : ℤ)
    (hz : Z = 0 ∨ (Z : ZMod fieldPrime) ≠ 0) :
    ∃ x y : ℤ, newsecp256k1.affineFromJacobian X Y Z = some (x, y) ∧
      (0 ≤ x ∧ x < newsecp256k1.P) ∧ (0 ≤ y ∧ y < newsecp256k1.P) := by
  obtain ⟨r, hr⟩ := affineFromJacobian_total X Y Z hz
  exact ⟨r.1, r.2, hr, affineFromJacobian_range X Y Z r.1 r.2 hr⟩

theorem Add_z_ok (x1 y1 x2 y2 : ℤ) (pool : numPool) :
    (newsecp256k1.addJacobian x1 y1 (zForAffine x1 y1) x2 y2 (zForAffine x2 y2) pool).1.2.2 = 0 ∨
    (((newsecp256k1.addJacobian x1 y1 (zForAffine x1 y1) x2 y2
      (zForAffine x2 y2) pool).1.2.2 : ℤ) : ZMod fieldPrime) ≠ 0 :=
  addJacobian_z_ok _ _ _ _ _ _ _ (zForAffine_z_ok x1 y1) (zForAffine_z_ok x2 y2)

theorem ScalarMult_z_ok (Bx By : ℤ) (k : List ℕ) (pool : numPool) :
    (k.foldl (fun a byte => newsecp256k1.scalarMultBits Bx By 1 8 byte a)
      ((0, 0, 0), pool)).1.2.2 = 0 ∨
    (((k.foldl (fun a byte => newsecp256k1.scalarMultBits Bx By 1 8 byte a)
      ((0, 0, 0), pool)).1.2.2 : ℤ) : ZMod fieldPrime) ≠ 0 :=
  scalarMultFold_z_ok Bx By k ((0, 0, 0), pool) (Or.inl rfl)

theorem Add_total_range (x1 y1 x2 y2 : ℤ) (pool : numPool) :
    ∃ x y : ℤ, (newsecp256k1.Add x1 y1 x2 y2 pool).1 = some (x, y) ∧
      (0 ≤ x ∧ x < newsecp256k1.P) ∧ (0 ≤ y ∧ y < newsecp256k1.P) :=
  affineFromJacobian_total_range _ _ _ (Add_z_ok x1 y1 x2 y2 pool)

theorem Double_total_range (x1 y1 : ℤ) (pool : numPool) :
    ∃ x y : ℤ, (newsecp256k1.Double x1 y1 pool).1 = some (x, y) ∧
      (0 ≤ x ∧ x < newsecp256k1.P) ∧ (0 ≤ y ∧ y < newsecp256k1.P) :=
  affineFromJacobian_total_range _ _ _ (doubleJacobian_z_ok x1 y1 (zForAffine x1 y1) pool)

theorem ScalarMult_total_range (Bx By : ℤ) (k : List ℕ) (pool : numPool) :
    ∃ x y : ℤ, (newsecp256k1.ScalarMult Bx By k pool).1 = some (x, y) ∧
      (0 ≤ x ∧ x < newsecp256k1.P) ∧ (0 ≤ y ∧ y < newsecp256k1.P) :=
  affineFromJacobian_total_range _ _ _ (ScalarMult_z_ok Bx By k pool)

theorem modEq_of_cast_eq (a b : ℤ) (h : (a : ZMod fieldPrime) = (b : ZMod fieldPrime)) :
    a ≡ b [ZMOD newsecp256k1.P] := by
  rw [P_eq]
  exact (ZMod.intCast_eq_intCast_iff a b fieldPrime).1 h

/-- C13: `affineFromJacobian` is the Jacobian-to-affine map: `Z = 0` gives `(0, 0)`; for
`Z` not divisible by `P` it returns `(x, y)` with `0 ≤ x, y < P`, `x·Z² ≡ X` and
`y·Z³ ≡ Y (mod P)`.  Hence the public `Add`, `Double`, `ScalarMult` and `ScalarBaseMult`
always return a pair, with both coordinates in `[0, P)`. -/
theorem affineFromJacobian_map :
    (∀ X Y : ℤ, newsecp256k1.affineFromJacobian X Y 0 = some (0, 0)) ∧
    (∀ X Y Z : ℤ, ¬ newsecp256k1.P ∣ Z →
      ∃ x y : ℤ, newsecp256k1.affineFromJacobian X Y Z = some (x, y) ∧
        (0 ≤ x ∧ x < newsecp256k1.P) ∧ (0 ≤ y ∧ y < newsecp256k1.P) ∧
        x * Z ^ 2 ≡ X [ZMOD newsecp256k1.P] ∧ y * Z ^ 3 ≡ Y [ZMOD newsecp256k1.P]) ∧
    (∀ (x1 y1 x2 y2 : ℤ) (pool : numPool),
      ∃ x y : ℤ, (newsecp256k1.Add x1 y1 x2 y2 pool).1 = some (x, y) ∧
        (0 ≤ x ∧ x < newsecp256k1.P) ∧ (0 ≤ y ∧ y < newsecp256k1.P)) ∧
    (∀ (x1 y1 : ℤ) (pool : numPool),
      ∃ x y : ℤ, (newsecp256k1.Double x1 y1 pool).1 = some (x, y) ∧
        (0 ≤ x ∧ x < newsecp256k1.P) ∧ (0 ≤ y ∧ y < newsecp256k1.P)) ∧
    (∀ (Bx By : ℤ) (k : List ℕ) (pool : numPool),
      ∃ x y : ℤ, (newsecp256k1.ScalarMult Bx By k pool).1 = some (x, y) ∧
        (0 ≤ x ∧ x < newsecp256k1.P) ∧ (0 ≤ y ∧ y < newsecp256k1.P)) ∧
    (∀ (k : List ℕ) (pool : numPool),
      ∃ x y : ℤ, (newsecp256k1.ScalarBaseMult k pool).1 = some (x, y) ∧
        (0 ≤ x ∧ x < newsecp256k1.P) ∧ (0 ≤ y ∧ y < newsecp256k1.P)) := by
  refine ⟨affineFromJacobian_zero, fun X Y Z hZ => ?_, Add_total_range, Double_total_range,
    ScalarMult_total_range,
    fun k pool => ScalarMult_total_range newsecp256k1.Gx newsecp256k1.Gy k pool⟩
  obtain ⟨x, y, hres, hx, hy, hxa, hyb⟩ :=
    affineFromJacobian_spec X Y Z ((not_dvd_iff_cast_ne_zero Z).1 hZ)
  exact ⟨x, y, hres, hx, hy, modEq_of_cast_eq _ _ (by push_cast; exact hxa),
    modEq_of_cast_eq _ _ (by push_cast; exact hyb)⟩

theorem affineFromJacobian_map_witness :
    ¬ newsecp256k1.P ∣ 2 ∧
    ∃ x y : ℤ, newsecp256k1.affineFromJacobian newsecp256k1.Gx newsecp256k1.Gy 2 = some (x, y) ∧
      (0 ≤ x ∧ x < newsecp256k1.P) ∧ (0 ≤ y ∧ y < newsecp256k1.P) ∧
      x * 2 ^ 2 ≡ newsecp256k1.Gx [ZMOD newsecp256k1.P] ∧
      y * 2 ^ 3 ≡ newsecp256k1.Gy [ZMOD newsecp256k1.P] :=
  ⟨(not_dvd_iff_cast_ne_zero 2).2 (cast_ne_zero_of_emod 2 (by decide!)),
    affineFromJacobian_map.2.1 newsecp256k1.Gx newsecp256k1.Gy 2
      ((not_dvd_iff_cast_ne_zero 2).2 (cast_ne_zero_of_emod 2 (by decide!)))⟩

theorem z_ok_dvd (Z : ℤ) (h : Z = 0 ∨ (Z : ZMod fieldPrime) ≠ 0) :
    Z = 0 ∨ ¬ newsecp256k1.P ∣ Z :=
  h.imp id (not_dvd_iff_cast_ne_zero Z).2

theorem doubleJacobian_z_ne_P (x y z : ℤ) (pool : numPool) (hz : z ≠ 0) :
    (newsecp256k1.doubleJacobian x y z pool).1.2.2 = 2 * (y * z % newsecp256k1.P) ∧
      (newsecp256k1.doubleJacobian x y z pool).1.2.2 ≠ newsecp256k1.P := by
  obtain ⟨X, Y, Z, hJ, hZ, -⟩ := doubleJacobian_spec x y z hz pool
  rw [hJ]
  refine ⟨hZ, ?_⟩
  show Z ≠ newsecp256k1.P
  have hodd : newsecp256k1.P % 2 = 1 := by decide!
  intro h
  rw [h] at hZ
  omega

/-- C16: the public operations never ask for the inverse of a non-invertible value.  In
`Add`, `Double`, `ScalarMult` and `ScalarBaseMult` (for all integer inputs and every byte
sequence) the `Z` handed to `affineFromJacobian` is `0` or not divisible by `P`, and the
operation returns a pair; the doubling output `Z3 = 2·(Y·Z mod P)` is never `P`. -/
theorem inverse_always_defined :
    (∀ (x1 y1 x2 y2 : ℤ) (pool : numPool),
      ((newsecp256k1.addJacobian x1 y1 (zForAffine x1 y1) x2 y2
          (zForAffine x2 y2) pool).1.2.2 = 0 ∨
        ¬ newsecp256k1.P ∣ (newsecp256k1.addJacobian x1 y1 (zForAffine x1 y1) x2 y2
          (zForAffine x2 y2) pool).1.2.2) ∧
      ∃ r : ℤ × ℤ, (newsecp256k1.Add x1 y1 x2 y2 pool).1 = some r) ∧
    (∀ (x1 y1 : ℤ) (pool : numPool),
      ((newsecp256k1.doubleJacobian x1 y1 (zForAffine x1 y1) pool).1.2.2 = 0 ∨
        ¬ newsecp256k1.P ∣ (newsecp256k1.doubleJacobian x1 y1 (zForAffine x1 y1) pool).1.2.2) ∧
      ∃ r : ℤ × ℤ, (newsecp256k1.Double x1 y1 pool).1 = some r) ∧
    (∀ (Bx By : ℤ) (k : List ℕ) (pool : numPool),
      ((k.foldl (fun a byte => newsecp256k1.scalarMultBits Bx By 1 8 byte a)
          ((0, 0, 0), pool)).1.2.2 = 0 ∨
        ¬ newsecp256k1.P ∣ (k.foldl (fun a byte => newsecp256k1.scalarMultBits Bx By 1 8 byte a)
          ((0, 0, 0), pool)).1.2.2) ∧
      ∃ r : ℤ × ℤ, (newsecp256k1.ScalarMult Bx By k pool).1 = some r) ∧
    (∀ (k : List ℕ) (pool : numPool),
      ∃ r : ℤ × ℤ, (newsecp256k1.ScalarBaseMult k pool).1 = some r) ∧
    (∀ (x y z : ℤ) (pool : numPool), z ≠ 0 →
      (newsecp256k1.doubleJacobian x y z pool).1.2.2 = 2 * (y * z % newsecp256k1.P) ∧
      (newsecp256k1.doubleJacobian x y z pool).1.2.2 ≠ newsecp256k1.P) := by
  refine ⟨fun x1 y1 x2 y2 pool => ⟨z_ok_dvd _ (Add_z_ok x1 y1 x2 y2 pool), ?_⟩,
    fun x1 y1 pool => ⟨z_ok_dvd _ (doubleJacobian_z_ok _ _ _ _), Double_total x1 y1 pool⟩,
    fun Bx By k pool => ⟨z_ok_dvd _ (ScalarMult_z_ok Bx By k pool), ?_⟩,
    fun k pool => ?_,
    fun x y z pool hz => doubleJacobian_z_ne_P x y z pool hz⟩
  · obtain ⟨x, y, h, -⟩ := Add_total_range x1 y1 x2 y2 pool
    exact ⟨_, h⟩
  · obtain ⟨x, y, h, -⟩ := ScalarMult_total_range Bx By k pool
    exact ⟨_, h⟩
  · obtain ⟨x, y, h, -⟩ := ScalarMult_total_range newsecp256k1.Gx newsecp256k1.Gy k pool
    exact ⟨_, h⟩

theorem inverse_always_defined_witness :
    (1 : ℤ) ≠ 0 ∧
    (newsecp256k1.doubleJacobian newsecp256k1.Gx newsecp256k1.Gy 1 initPool).1.2.2 =
      2 * (newsecp256k1.Gy * 1 % newsecp256k1.P) ∧
    (newsecp256k1.doubleJacobian newsecp256k1.Gx newsecp256k1.Gy 1 initPool).1.2.2 ≠
      newsecp256k1.P :=
  ⟨one_ne_zero, inverse_always_defined.2.2.2.2 newsecp256k1.Gx newsecp256k1.Gy 1 initPool
    one_ne_zero⟩

/-- C20: `addJacobian` computes the chord rule in Jacobian form.  For `Z1 ≠ 0`, `Z2 ≠ 0`
outside the doubling branch, with `u1 = X1·Z2²`, `u2 = X2·Z1²`, `s1 = Y1·Z2³`,
`s2 = Y2·Z1³` and `h = u2 - u1`: `X3 ≡ 4(s2-s1)² - 4h²(u1+u2)`,
`Y3 ≡ 2(s2-s1)(4h²u1 - X3) - 8·s1·h³` and `Z3 ≡ 2·h·Z1·Z2` modulo `P`. -/
theorem addJacobian_chord_rule (x1 y1 z1 x2 y2 z2 : ℤ) (pool : numPool)
    (hz1 : z1 ≠ 0) (hz2 : z2 ≠ 0)
    (hbranch : ¬ (x2 * (z1 * z1 % newsecp256k1.P) % newsecp256k1.P -
          x1 * (z2 * z2 % newsecp256k1.P) % newsecp256k1.P = 0 ∧
        y2 * (z1 * (z1 * z1 % newsecp256k1.P) % newsecp256k1.P) % newsecp256k1.P -
          y1 * (z2 * (z2 * z2 % newsecp256k1.P) % newsecp256k1.P) % newsecp256k1.P = 0)) :
    ∃ X3 Y3 Z3 : ℤ, (newsecp256k1.addJacobian x1 y1 z1 x2 y2 z2 pool).1 = (X3, Y3, Z3) ∧
      X3 ≡ 4 * (y2 * z1 ^ 3 - y1 * z2 ^ 3) ^ 2 -
        4 * (x2 * z1 ^ 2 - x1 * z2 ^ 2) ^ 2 * (x1 * z2 ^ 2 + x2 * z1 ^ 2)
        [ZMOD newsecp256k1.P] ∧
      Y3 ≡ 2 * (y2 * z1 ^ 3 - y1 * z2 ^ 3) *
          (4 * (x2 * z1 ^ 2 - x1 * z2 ^ 2) ^ 2 * (x1 * z2 ^ 2) - X3) -
        8 * (y1 * z2 ^ 3) * (x2 * z1 ^ 2 - x1 * z2 ^ 2) ^ 3 [ZMOD newsecp256k1.P] ∧
      Z3 ≡ 2 * (x2 * z1 ^ 2 - x1 * z2 ^ 2) * z1 * z2 [ZMOD newsecp256k1.P] := by
  have hne : ¬ ((x2 : ZMod fieldPrime) * (z1 : ZMod fieldPrime) ^ 2 =
        (x1 : ZMod fieldPrime) * (z2 : ZMod fieldPrime) ^ 2 ∧
      (y2 : ZMod fieldPrime) * (z1 : ZMod fieldPrime) ^ 3 =
        (y1 : ZMod fieldPrime) * (z2 : ZMod fieldPrime) ^ 3) :=
    fun h => hbranch ⟨(addJacobian_xEqual_iff x1 z1 x2 z2).2 h.1,
      (addJacobian_yEqual_iff y1 z1 y2 z2).2 h.2⟩
  obtain ⟨X, Y, Z, hJ, -, hX, hY, hZ⟩ := addJacobian_general x1 y1 z1 x2 y2 z2 pool hz1 hz2 hne
  refine ⟨X, Y, Z, hJ, modEq_of_cast_eq _ _ ?_, modEq_of_cast_eq _ _ ?_,
    modEq_of_cast_eq _ _ ?_⟩
  · rw [hX]; unfold chordX; push_cast; ring
  · rw [hY]; unfold chordY; push_cast; rw [hX]
  · rw [hZ]; push_cast; ring

theorem addJacobian_chord_rule_witness :
    (1 : ℤ) ≠ 0 ∧
    ¬ (3 * (1 * 1 % newsecp256k1.P) % newsecp256k1.P -
          1 * (1 * 1 % newsecp256k1.P) % newsecp256k1.P = 0 ∧
        4 * (1 * (1 * 1 % newsecp256k1.P) % newsecp256k1.P) % newsecp256k1.P -
          2 * (1 * (1 * 1 % newsecp256k1.P) % newsecp256k1.P) % newsecp256k1.P = 0) ∧
    ∃ X3 Y3 Z3 : ℤ, (newsecp256k1.addJacobian 1 2 1 3 4 1 initPool).1 = (X3, Y3, Z3) ∧
      X3 ≡ 4 * (4 * 1 ^ 3 - 2 * 1 ^ 3) ^ 2 -
        4 * (3 * 1 ^ 2 - 1 * 1 ^ 2) ^ 2 * (1 * 1 ^ 2 + 3 * 1 ^ 2)
        [ZMOD newsecp256k1.P] ∧
      Y3 ≡ 2 * (4 * 1 ^ 3 - 2 * 1 ^ 3) *
          (4 * (3 * 1 ^ 2 - 1 * 1 ^ 2) ^ 2 * (1 * 1 ^ 2) - X3) -
        8 * (2 * 1 ^ 3) * (3 * 1 ^ 2 - 1 * 1 ^ 2) ^ 3 [ZMOD newsecp256k1.P] ∧
      Z3 ≡ 2 * (3 * 1 ^ 2 - 1 * 1 ^ 2) * 1 * 1 [ZMOD newsecp256k1.P] :=
  ⟨one_ne_zero, by decide!,
    addJacobian_chord_rule 1 2 1 3 4 1 initPool one_ne_zero one_ne_zero (by decide!)⟩

/-! ## Size of the outputs of `addJacobian` -/

theorem sub_sub_double_bound (a b c : ℤ) (ha : 0 ≤ a ∧ a < newsecp256k1.P)
    (hb : 0 ≤ b ∧ b < newsecp256k1.P) (hc : 0 ≤ c ∧ c < newsecp256k1.P) :
    -(3 * newsecp256k1.P) < a - b - (c + c) ∧ a - b - (c + c) < newsecp256k1.P := by
  omega

theorem sub_double_bound (a b : ℤ) (ha : 0 ≤ a ∧ a < newsecp256k1.P)
    (hb : 0 ≤ b ∧ b < newsecp256k1.P) :
    -(2 * newsecp256k1.P) < a - (b + b) ∧ a - (b + b) < newsecp256k1.P := by
  omega

/-- C17 fails as stated: on the inputs `(1, 2, 1)` and `(3, 4, 1)`, and on the generator
and its double, `addJacobian` takes the general branch and returns a negative `X3`. -/
theorem addJacobian_x3_not_reduced :
    ((1 : ℤ) ≠ 0 ∧ (0 ≤ (1 : ℤ) ∧ (1 : ℤ) < newsecp256k1.P) ∧
      (0 ≤ (2 : ℤ) ∧ (2 : ℤ) < newsecp256k1.P) ∧ (0 ≤ (3 : ℤ) ∧ (3 : ℤ) < newsecp256k1.P) ∧
      (0 ≤ (4 : ℤ) ∧ (4 : ℤ) < newsecp256k1.P)) ∧
    ¬ (3 * (1 * 1 % newsecp256k1.P) % newsecp256k1.P -
          1 * (1 * 1 % newsecp256k1.P) % newsecp256k1.P = 0 ∧
        4 * (1 * (1 * 1 % newsecp256k1.P) % newsecp256k1.P) % newsecp256k1.P -
          2 * (1 * (1 * 1 % newsecp256k1.P) % newsecp256k1.P) % newsecp256k1.P = 0) ∧
    (newsecp256k1.addJacobian 1 2 1 3 4 1 initPool).1 = (-48, 128, 4) ∧
    ¬ (0 ≤ (newsecp256k1.addJacobian 1 2 1 3 4 1 initPool).1.1) ∧
    newsecp256k1.IsOnCurve newsecp256k1.Gx newsecp256k1.Gy = true ∧
    newsecp256k1.IsOnCurve 0xC6047F9441ED7D6D3045406E95C07CD85C778E4B8CEF3CA7ABAC09B95C709EE5
      0x1AE168FEA63DC339A3C58419466CEAEEF7F632653266D0E1236431A950CFE52A = true ∧
    (newsecp256k1.addJacobian newsecp256k1.Gx newsecp256k1.Gy 1
      0xC6047F9441ED7D6D3045406E95C07CD85C778E4B8CEF3CA7ABAC09B95C709EE5
      0x1AE168FEA63DC339A3C58419466CEAEEF7F632653266D0E1236431A950CFE52A 1 initPool).1 =
      (-118718613469469559961282638086548592447788685530504953108460076874795318898346,
        -161407764421873563161161317580389449760880383141950822437807947922527682287959,
        68999257808539321123348403061534316068787084751689231316368285105816144514714) := by
  decide!

/-- C17 as amended: outside the doubling branch, for `Z1 ≠ 0` and `Z2 ≠ 0`, the output
`Z3` is reduced modulo `P`, while `X3` and `Y3` are differences of reduced values:
`-3P < X3 < P` and `-2P < Y3 < P`. -/
theorem addJacobian_output_bounds (x1 y1 z1 x2 y2 z2 : ℤ) (pool : numPool)
    (hz1 : z1 ≠ 0) (hz2 : z2 ≠ 0)
    (hbranch : ¬ (x2 * (z1 * z1 % newsecp256k1.P) % newsecp256k1.P -
          x1 * (z2 * z2 % newsecp256k1.P) % newsecp256k1.P = 0 ∧
        y2 * (z1 * (z1 * z1 % newsecp256k1.P) % newsecp256k1.P) % newsecp256k1.P -
          y1 * (z2 * (z2 * z2 % newsecp256k1.P) % newsecp256k1.P) % newsecp256k1.P = 0)) :
    ∃ X3 Y3 Z3 : ℤ, (newsecp256k1.addJacobian x1 y1 z1 x2 y2 z2 pool).1 = (X3, Y3, Z3) ∧
      (0 ≤ Z3 ∧ Z3 < newsecp256k1.P) ∧
      (-(3 * newsecp256k1.P) < X3 ∧ X3 < newsecp256k1.P) ∧
      (-(2 * newsecp256k1.P) < Y3 ∧ Y3 < newsecp256k1.P) := by
  have hc : ¬ ((decide (x2 * (z1 * z1 % newsecp256k1.P) % newsecp256k1.P -
        x1 * (z2 * z2 % newsecp256k1.P) % newsecp256k1.P = 0) &&
      decide (y2 * (z1 * (z1 * z1 % newsecp256k1.P) % newsecp256k1.P) % newsecp256k1.P -
        y1 * (z2 * (z2 * z2 % newsecp256k1.P) % newsecp256k1.P) % newsecp256k1.P = 0)) =
      true) := by
    simp only [Bool.and_eq_true, decide_eq_true_eq]
    exact hbranch
  refine ⟨(newsecp256k1.addJacobian x1 y1 z1 x2 y2 z2 pool).1.1,
    (newsecp256k1.addJacobian x1 y1 z1 x2 y2 z2 pool).1.2.1,
    (newsecp256k1.addJacobian x1 y1 z1 x2 y2 z2 pool).1.2.2, rfl, ?_, ?_, ?_⟩
  · simp only [secp256k1Curve.addJacobian, if_neg hz1, if_neg hz2, if_neg hc]
    exact emod_range _
  · simp only [secp256k1Curve.addJacobian, if_neg hz1, if_neg hz2, if_neg hc]
    exact sub_sub_double_bound _ _ _ (emod_range _) (emod_range _) (emod_range _)
  · simp only [secp256k1Curve.addJacobian, if_neg hz1, if_neg hz2, if_neg hc]
    exact sub_double_bound _ _ (emod_range _) (emod_range _)

theorem addJacobian_output_bounds_witness :
    (1 : ℤ) ≠ 0 ∧
    ¬ (3 * (1 * 1 % newsecp256k1.P) % newsecp256k1.P -
          1 * (1 * 1 % newsecp256k1.P) % newsecp256k1.P = 0 ∧
        4 * (1 * (1 * 1 % newsecp256k1.P) % newsecp256k1.P) % newsecp256k1.P -
          2 * (1 * (1 * 1 % newsecp256k1.P) % newsecp256k1.P) % newsecp256k1.P = 0) ∧
    ∃ X3 Y3 Z3 : ℤ, (newsecp256k1.addJacobian 1 2 1 3 4 1 initPool).1 = (X3, Y3, Z3) ∧
      (0 ≤ Z3 ∧ Z3 < newsecp256k1.P) ∧
      (-(3 * newsecp256k1.P) < X3 ∧ X3 < newsecp256k1.P) ∧
      (-(2 * newsecp256k1.P) < Y3 ∧ Y3 < newsecp256k1.P) :=
  ⟨one_ne_zero, by decide!,
    addJacobian_output_bounds 1 2 1 3 4 1 initPool one_ne_zero one_ne_zero (by decide!)⟩


/-! ## Pool accounting -/

theorem wrapInt_range (a : ℤ) : -2 ^ 63 ≤ wrapInt a ∧ wrapInt a < 2 ^ 63 := by
  unfold wrapInt
  norm_num
  omega

theorem wrapInt_of_range (a : ℤ) (h : -2 ^ 63 ≤ a ∧ a < 2 ^ 63) : wrapInt a = a := by
  unfold wrapInt
  norm_num at h ⊢
  omega

theorem wrapInt_wrapInt_add (a b : ℤ) : wrapInt (wrapInt a + b) = wrapInt (a + b) := by
  unfold wrapInt
  norm_num
  omega

theorem Get_leakedcount (pool : numPool) :
    pool.Get.2.leakedcount = wrapInt (pool.leakedcount + 1) := by
  simp only [numPool.Get]
  split_ifs <;> rfl

theorem Put_leakedcount (pool : numPool) (bn : ℤ) :
    (pool.Put bn).leakedcount = wrapInt (pool.leakedcount - 1) := rfl

theorem runCalls_cons (pool : numPool) (c : poolCall) (cs : List poolCall) :
    runCalls pool (c :: cs) =
      runCalls (match c with
        | poolCall.get => pool.Get.2
        | poolCall.put bn => pool.Put bn) cs := rfl

theorem runCalls_leakedcount (cs : List poolCall) :
    ∀ pool : numPool, (-2 ^ 63 ≤ pool.leakedcount ∧ pool.leakedcount < 2 ^ 63) →
      (runCalls pool cs).leakedcount =
        wrapInt (pool.leakedcount + (getCalls cs : ℤ) - (putCalls cs : ℤ)) := by
  induction cs with
  | nil =>
    intro pool h
    simp only [getCalls, putCalls, Nat.cast_zero, add_zero, sub_zero]
    exact (wrapInt_of_range _ h).symm
  | cons c cs ih =>
    intro pool _
    cases c with
    | get =>
      rw [runCalls_cons]
      simp only
      rw [ih _ (by rw [Get_leakedcount]; exact wrapInt_range _), Get_leakedcount,
        add_sub_assoc, wrapInt_wrapInt_add]
      congr 1
      simp only [getCalls, putCalls]
      push_cast
      ring
    | put bn =>
      rw [runCalls_cons]
      simp only
      rw [ih _ (by rw [Put_leakedcount]; exact wrapInt_range _), Put_leakedcount,
        add_sub_assoc, wrapInt_wrapInt_add]
      congr 1
      simp only [getCalls, putCalls]
      push_cast
      ring

theorem getCalls_replicate_get (n : ℕ) : getCalls (List.replicate n poolCall.get) = n := by
  induction n with
  | zero => rfl
  | succ n ih => rw [List.replicate_succ, getCalls, ih]

theorem putCalls_replicate_get (n : ℕ) : putCalls (List.replicate n poolCall.get) = 0 := by
  induction n with
  | zero => rfl
  | succ n ih => rw [List.replicate_succ, putCalls, ih]

theorem initPool_range : -2 ^ 63 ≤ initPool.leakedcount ∧ initPool.leakedcount < 2 ^ 63 := by
  decide

theorem runCalls_initPool_count (cs : List poolCall) :
    (runCalls initPool cs).Count = wrapInt ((getCalls cs : ℤ) - (putCalls cs : ℤ)) := by
  have h := runCalls_leakedcount cs initPool initPool_range
  have h0 : initPool.leakedcount = 0 := rfl
  rw [h0, zero_add] at h
  exact h

theorem getCalls_add_putCalls (cs : List poolCall) :
    getCalls cs + putCalls cs = cs.length := by
  induction cs with
  | nil => rfl
  | cons c cs ih =>
    cases c with
    | get => simp only [getCalls, putCalls, List.length_cons]; omega
    | put bn => simp only [getCalls, putCalls, List.length_cons]; omega

theorem runCalls_initPool_count_exact (cs : List poolCall) (hlen : cs.length < 2 ^ 63) :
    (runCalls initPool cs).Count = (getCalls cs : ℤ) - (putCalls cs : ℤ) := by
  have hsum := getCalls_add_putCalls cs
  have hg : (getCalls cs : ℤ) < 2 ^ 63 := by
    have : getCalls cs < 2 ^ 63 := by omega
    exact_mod_cast this
  have hp : (putCalls cs : ℤ) < 2 ^ 63 := by
    have : putCalls cs < 2 ^ 63 := by omega
    exact_mod_cast this
  have hg0 : (0 : ℤ) ≤ (getCalls cs : ℤ) := Int.ofNat_nonneg _
  have hp0 : (0 : ℤ) ≤ (putCalls cs : ℤ) := Int.ofNat_nonneg _
  rw [runCalls_initPool_count]
  apply wrapInt_of_range
  constructor <;> linarith

theorem Get_after_Put (pool : numPool) (bn : ℤ) :
    (pool.Put bn).Get.1 = bn ∧ (pool.Put bn).Get.2.bns = pool.bns := by
  simp [numPool.Get, numPool.Put]

theorem Get_of_empty (pool : numPool) (h : pool.bns = []) :
    pool.Get.1 = 0 ∧ pool.Get.2.bns = [] := by
  simp [numPool.Get, h]

theorem Get_of_nonempty (pool : numPool) (h : pool.bns ≠ []) :
    pool.Get.1 = pool.bns.getLast h ∧ pool.Get.2.bns = pool.bns.dropLast := by
  have hlen : pool.bns.length ≠ 0 := fun h0 => h (List.length_eq_zero.1 h0)
  simp only [numPool.Get, if_neg hlen]
  refine ⟨?_, (List.dropLast_eq_take pool.bns).symm⟩
  rw [List.getLast_eq_getElem, List.getD_eq_getElem?_getD,
    List.getElem?_eq_getElem (by omega)]
  rfl

/-- C15: pool accounting.  From the fresh pool (count 0), after any sequence of `Get`
and `Put` calls that a run can perform (fewer than `2^63` calls, so the `int` counter
cannot overflow), `Count()` is the number of `Get` calls minus the number of `Put`
calls; after any sequence with as many `Put` calls as `Get` calls, of any length,
`Count()` is 0.  `Get` always returns a holder: a fresh zero one when the list is empty,
otherwise the one put last, which it removes from the list. -/
theorem pool_count_accounting :
    initPool.Count = 0 ∧
    (∀ cs : List poolCall, cs.length < 2 ^ 63 →
      (runCalls initPool cs).Count = (getCalls cs : ℤ) - (putCalls cs : ℤ)) ∧
    (∀ cs : List poolCall, getCalls cs = putCalls cs → (runCalls initPool cs).Count = 0) ∧
    (∀ pool : numPool, pool.bns = [] → pool.Get.1 = 0 ∧ pool.Get.2.bns = []) ∧
    (∀ (pool : numPool) (h : pool.bns ≠ []),
      pool.Get.1 = pool.bns.getLast h ∧ pool.Get.2.bns = pool.bns.dropLast) ∧
    (∀ (pool : numPool) (bn : ℤ),
      (pool.Put bn).Get.1 = bn ∧ (pool.Put bn).Get.2.bns = pool.bns) := by
  refine ⟨rfl, runCalls_initPool_count_exact, fun cs h => ?_, Get_of_empty,
    Get_of_nonempty, Get_after_Put⟩
  rw [runCalls_initPool_count, h, sub_self]
  rfl

theorem pool_count_accounting_witness :
    [poolCall.get, poolCall.get, poolCall.put 5, poolCall.get].length < 2 ^ 63 ∧
    (runCalls initPool [poolCall.get, poolCall.get, poolCall.put 5, poolCall.get]).Count =
      (getCalls [poolCall.get, poolCall.get, poolCall.put 5, poolCall.get] : ℤ) -
        (putCalls [poolCall.get, poolCall.get, poolCall.put 5, poolCall.get] : ℤ) ∧
    getCalls [poolCall.get, poolCall.get, poolCall.put 5, poolCall.get, poolCall.put 7,
      poolCall.put 9] =
      putCalls [poolCall.get, poolCall.get, poolCall.put 5, poolCall.get, poolCall.put 7,
        poolCall.put 9] ∧
    (runCalls initPool [poolCall.get, poolCall.get, poolCall.put 5, poolCall.get,
      poolCall.put 7, poolCall.put 9]).Count = 0 :=
  ⟨by decide,
    pool_count_accounting.2.1 [poolCall.get, poolCall.get, poolCall.put 5, poolCall.get]
      (by decide),
    by decide,
    pool_count_accounting.2.2.1 [poolCall.get, poolCall.get, poolCall.put 5,
      poolCall.get, poolCall.put 7, poolCall.put 9] (by decide)⟩

/-! ## Scratch holders of the Jacobian routines -/

theorem doubleJacobian_pool_calls (x y z : ℤ) (pool : numPool) (hz : z ≠ 0) :
    ∃ a1 a2 a3 a4 a5 a6 a7 a8 : ℤ,
      (newsecp256k1.doubleJacobian x y z pool).2 =
        runCalls pool [poolCall.get, poolCall.get, poolCall.get, poolCall.get, poolCall.get,
          poolCall.get, poolCall.get, poolCall.get, poolCall.put a1, poolCall.put a2,
          poolCall.put a3, poolCall.put a4, poolCall.put a5, poolCall.put a6, poolCall.put a7,
          poolCall.put a8] := by
  simp only [secp256k1Curve.doubleJacobian, if_neg hz]
  exact ⟨_, _, _, _, _, _, _, _, rfl⟩

theorem runCalls_balanced_count (pool : numPool) (cs : List poolCall)
    (hc : -2 ^ 63 ≤ pool.Count ∧ pool.Count < 2 ^ 63) (hb : getCalls cs = putCalls cs) :
    (runCalls pool cs).Count = pool.Count := by
  have h := runCalls_leakedcount cs pool hc
  rw [hb, add_sub_cancel_right] at h
  exact h.trans (wrapInt_of_range _ hc)

/-- C18: `doubleJacobian` releases every scratch holder it checks out.  For every input
and every pool state (its counter being a Go `int`), `Count()` after the call equals
`Count()` before: with `Z = 0` the pool is not touched, and with `Z ≠ 0` the pool goes
through eight `Get` calls followed by eight `Put` calls. -/
theorem doubleJacobian_count_preserved (x y z : ℤ) (pool : numPool)
    (hc : -2 ^ 63 ≤ pool.Count ∧ pool.Count < 2 ^ 63) :
    (newsecp256k1.doubleJacobian x y z pool).2.Count = pool.Count ∧
    (z = 0 → (newsecp256k1.doubleJacobian x y z pool).2 = pool) ∧
    (z ≠ 0 → ∃ a1 a2 a3 a4 a5 a6 a7 a8 : ℤ,
      (newsecp256k1.doubleJacobian x y z pool).2 =
        runCalls pool [poolCall.get, poolCall.get, poolCall.get, poolCall.get, poolCall.get,
          poolCall.get, poolCall.get, poolCall.get, poolCall.put a1, poolCall.put a2,
          poolCall.put a3, poolCall.put a4, poolCall.put a5, poolCall.put a6, poolCall.put a7,
          poolCall.put a8]) := by
  have hzero : z = 0 → (newsecp256k1.doubleJacobian x y z pool).2 = pool := by
    intro hz
    rw [hz, doubleJacobian_zero_pool]
  refine ⟨?_, hzero, fun hz => doubleJacobian_pool_calls x y z pool hz⟩
  by_cases hz : z = 0
  · rw [hzero hz]
  · obtain ⟨a1, a2, a3, a4, a5, a6, a7, a8, h⟩ := doubleJacobian_pool_calls x y z pool hz
    rw [h]
    exact runCalls_balanced_count pool _ hc rfl

theorem doubleJacobian_count_preserved_witness :
    (-2 ^ 63 ≤ initPool.Count ∧ initPool.Count < 2 ^ 63) ∧
    (newsecp256k1.doubleJacobian newsecp256k1.Gx newsecp256k1.Gy 1 initPool).2.Count =
      initPool.Count :=
  ⟨by decide,
    (doubleJacobian_count_preserved newsecp256k1.Gx newsecp256k1.Gy 1 initPool (by decide)).1⟩

theorem addJacobian_general_pool_calls (x1 y1 z1 x2 y2 z2 : ℤ) (pool : numPool)
    (hz1 : z1 ≠ 0) (hz2 : z2 ≠ 0)
    (hbranch : ¬ (x2 * (z1 * z1 % newsecp256k1.P) % newsecp256k1.P -
          x1 * (z2 * z2 % newsecp256k1.P) % newsecp256k1.P = 0 ∧
        y2 * (z1 * (z1 * z1 % newsecp256k1.P) % newsecp256k1.P) % newsecp256k1.P -
          y1 * (z2 * (z2 * z2 % newsecp256k1.P) % newsecp256k1.P) % newsecp256k1.P = 0)) :
    ∃ a1 a2 a3 a4 a5 a6 a7 a8 a9 a10 a11 a12 a13 a14 : ℤ,
      (newsecp256k1.addJacobian x1 y1 z1 x2 y2 z2 pool).2 =
        runCalls pool [poolCall.get, poolCall.get, poolCall.get, poolCall.get, poolCall.get,
          poolCall.get, poolCall.get, poolCall.get, poolCall.get, poolCall.get, poolCall.get,
          poolCall.get, poolCall.get, poolCall.get, poolCall.put a1, poolCall.put a2,
          poolCall.put a3, poolCall.put a4, poolCall.put a5, poolCall.put a6, poolCall.put a7,
          poolCall.put a8, poolCall.put a9, poolCall.put a10, poolCall.put a11,
          poolCall.put a12, poolCall.put a13, poolCall.put a14] := by
  have hc : ¬ ((decide (x2 * (z1 * z1 % newsecp256k1.P) % newsecp256k1.P -
        x1 * (z2 * z2 % newsecp256k1.P) % newsecp256k1.P = 0) &&
      decide (y2 * (z1 * (z1 * z1 % newsecp256k1.P) % newsecp256k1.P) % newsecp256k1.P -
        y1 * (z2 * (z2 * z2 % newsecp256k1.P) % newsecp256k1.P) % newsecp256k1.P = 0)) =
      true) := by
    simp only [Bool.and_eq_true, decide_eq_true_eq]
    exact hbranch
  simp only [secp256k1Curve.addJacobian, if_neg hz1, if_neg hz2, if_neg hc]
  exact ⟨_, _, _, _, _, _, _, _, _, _, _, _, _, _, rfl⟩

/-- The branch of `addJacobian` for two representations of the same point leaves ten
holders checked out: the pool goes through ten `Get` calls and then the calls of
`doubleJacobian`. -/
theorem addJacobian_same_pool_calls (x1 y1 z1 x2 y2 z2 : ℤ) (pool : numPool)
    (hz1 : z1 ≠ 0) (hz2 : z2 ≠ 0)
    (hh : x2 * (z1 * z1 % newsecp256k1.P) % newsecp256k1.P -
      x1 * (z2 * z2 % newsecp256k1.P) % newsecp256k1.P = 0)
    (ht : y2 * (z1 * (z1 * z1 % newsecp256k1.P) % newsecp256k1.P) % newsecp256k1.P -
      y1 * (z2 * (z2 * z2 % newsecp256k1.P) % newsecp256k1.P) % newsecp256k1.P = 0) :
    (newsecp256k1.addJacobian x1 y1 z1 x2 y2 z2 pool).2 =
      (newsecp256k1.doubleJacobian x1 y1 z1
        (runCalls pool [poolCall.get, poolCall.get, poolCall.get, poolCall.get, poolCall.get,
          poolCall.get, poolCall.get, poolCall.get, poolCall.get, poolCall.get])).2 := by
  have hc : (decide (x2 * (z1 * z1 % newsecp256k1.P) % newsecp256k1.P -
        x1 * (z2 * z2 % newsecp256k1.P) % newsecp256k1.P = 0) &&
      decide (y2 * (z1 * (z1 * z1 % newsecp256k1.P) % newsecp256k1.P) % newsecp256k1.P -
        y1 * (z2 * (z2 * z2 % newsecp256k1.P) % newsecp256k1.P) % newsecp256k1.P = 0)) =
      true := by
    simp only [Bool.and_eq_true, decide_eq_true_eq]
    exact ⟨hh, ht⟩
  simp only [secp256k1Curve.addJacobian, if_neg hz1, if_neg hz2, if_pos hc]
  rfl

theorem doubleJacobian_leakedcount (x y z : ℤ) (pool : numPool)
    (hc : -2 ^ 63 ≤ pool.leakedcount ∧ pool.leakedcount < 2 ^ 63) :
    (newsecp256k1.doubleJacobian x y z pool).2.leakedcount = pool.leakedcount := by
  by_cases hz : z = 0
  · rw [hz, doubleJacobian_zero_pool]
  · obtain ⟨a1, a2, a3, a4, a5, a6, a7, a8, h⟩ := doubleJacobian_pool_calls x y z pool hz
    rw [h]
    exact runCalls_balanced_count pool _ hc rfl

theorem runCalls_ten_gets (pool : numPool)
    (hc : -2 ^ 63 ≤ pool.leakedcount ∧ pool.leakedcount < 2 ^ 63) :
    (runCalls pool [poolCall.get, poolCall.get, poolCall.get, poolCall.get, poolCall.get,
      poolCall.get, poolCall.get, poolCall.get, poolCall.get, poolCall.get]).leakedcount =
      wrapInt (pool.leakedcount + 10) := by
  have h := runCalls_leakedcount (List.replicate 10 poolCall.get) pool hc
  rw [getCalls_replicate_get, putCalls_replicate_get] at h
  rw [show ([poolCall.get, poolCall.get, poolCall.get, poolCall.get, poolCall.get,
      poolCall.get, poolCall.get, poolCall.get, poolCall.get, poolCall.get] : List poolCall) =
    List.replicate 10 poolCall.get from rfl, h]
  norm_num

theorem addJacobian_leakedcount (x1 y1 z1 x2 y2 z2 : ℤ) (pool : numPool)
    (hc : -2 ^ 63 ≤ pool.leakedcount ∧ pool.leakedcount < 2 ^ 63) :
    (newsecp256k1.addJacobian x1 y1 z1 x2 y2 z2 pool).2.leakedcount =
      if newsecp256k1.addTakesDoubling x1 y1 z1 x2 y2 z2 then wrapInt (pool.leakedcount + 10)
      else pool.leakedcount := by
  by_cases hz1 : z1 = 0
  · have hb : newsecp256k1.addTakesDoubling x1 y1 z1 x2 y2 z2 = false := by
      simp [secp256k1Curve.addTakesDoubling, hz1]
    rw [hb]
    simp only [secp256k1Curve.addJacobian, if_pos hz1]
    rfl
  by_cases hz2 : z2 = 0
  · have hb : newsecp256k1.addTakesDoubling x1 y1 z1 x2 y2 z2 = false := by
      simp [secp256k1Curve.addTakesDoubling, hz2]
    rw [hb]
    simp only [secp256k1Curve.addJacobian, if_neg hz1, if_pos hz2]
    rfl
  by_cases hsame : x2 * (z1 * z1 % newsecp256k1.P) % newsecp256k1.P -
        x1 * (z2 * z2 % newsecp256k1.P) % newsecp256k1.P = 0 ∧
      y2 * (z1 * (z1 * z1 % newsecp256k1.P) % newsecp256k1.P) % newsecp256k1.P -
        y1 * (z2 * (z2 * z2 % newsecp256k1.P) % newsecp256k1.P) % newsecp256k1.P = 0
  · have hb : newsecp256k1.addTakesDoubling x1 y1 z1 x2 y2 z2 = true := by
      simp only [secp256k1Curve.addTakesDoubling, Bool.and_eq_true, decide_eq_true_eq]
      exact ⟨⟨hz1, hz2⟩, hsame⟩
    rw [hb, if_pos rfl, addJacobian_same_pool_calls x1 y1 z1 x2 y2 z2 pool hz1 hz2 hsame.1
      hsame.2]
    have h10 := runCalls_ten_gets pool hc
    rw [doubleJacobian_leakedcount _ _ _ _ (by rw [h10]; exact wrapInt_range _), h10]
  · have hb : newsecp256k1.addTakesDoubling x1 y1 z1 x2 y2 z2 = false := by
      rw [← Bool.not_eq_true]
      simp only [secp256k1Curve.addTakesDoubling, Bool.and_eq_true, decide_eq_true_eq]
      exact fun h => hsame h.2
    rw [hb]
    obtain ⟨a1, a2, a3, a4, a5, a6, a7, a8, a9, a10, a11, a12, a13, a14, h⟩ :=
      addJacobian_general_pool_calls x1 y1 z1 x2 y2 z2 pool hz1 hz2 hsame
    rw [h]
    exact runCalls_balanced_count pool _ hc rfl

theorem addJacobian_leakedcount_range (x1 y1 z1 x2 y2 z2 : ℤ) (pool : numPool)
    (hc : -2 ^ 63 ≤ pool.leakedcount ∧ pool.leakedcount < 2 ^ 63) :
    -2 ^ 63 ≤ (newsecp256k1.addJacobian x1 y1 z1 x2 y2 z2 pool).2.leakedcount ∧
      (newsecp256k1.addJacobian x1 y1 z1 x2 y2 z2 pool).2.leakedcount < 2 ^ 63 := by
  rw [addJacobian_leakedcount _ _ _ _ _ _ _ hc]
  split_ifs
  · exact wrapInt_range _
  · exact hc

theorem scalarMultBits_count (Bx By Bz : ℤ) (n : ℕ) :
    ∀ (byte : ℕ) (acc : (ℤ × ℤ × ℤ) × numPool),
      (-2 ^ 63 ≤ acc.2.leakedcount ∧ acc.2.leakedcount < 2 ^ 63) →
      ((newsecp256k1.scalarMultBits Bx By Bz n byte acc).1 =
          (newsecp256k1.scalarMultBitsCount Bx By Bz n byte (acc.1, acc.2.leakedcount)).1 ∧
        (newsecp256k1.scalarMultBits Bx By Bz n byte acc).2.leakedcount =
          (newsecp256k1.scalarMultBitsCount Bx By Bz n byte (acc.1, acc.2.leakedcount)).2 ∧
        (-2 ^ 63 ≤ (newsecp256k1.scalarMultBits Bx By Bz n byte acc).2.leakedcount ∧
          (newsecp256k1.scalarMultBits Bx By Bz n byte acc).2.leakedcount < 2 ^ 63)) := by
  induction n with
  | zero => intro byte acc h; exact ⟨rfl, rfl, h⟩
  | succ n ih =>
    intro byte acc hc
    have hd1 := doubleJacobian_fst newsecp256k1 acc.1.1 acc.1.2.1 acc.1.2.2 acc.2 initPool
    have hd2 := doubleJacobian_leakedcount acc.1.1 acc.1.2.1 acc.1.2.2 acc.2 hc
    simp only [secp256k1Curve.scalarMultBits, secp256k1Curve.scalarMultBitsCount]
    rw [← hd1, ← hd2]
    have hdr : -2 ^ 63 ≤
          (newsecp256k1.doubleJacobian acc.1.1 acc.1.2.1 acc.1.2.2 acc.2).2.leakedcount ∧
        (newsecp256k1.doubleJacobian acc.1.1 acc.1.2.1 acc.1.2.2 acc.2).2.leakedcount <
          2 ^ 63 := by
      rw [hd2]; exact hc
    generalize newsecp256k1.doubleJacobian acc.1.1 acc.1.2.1 acc.1.2.2 acc.2 = d at hdr ⊢
    by_cases hbit : byte &&& 0x80 = 0x80
    · simp only [if_pos hbit]
      have ha1 := addJacobian_fst newsecp256k1 Bx By Bz d.1.1 d.1.2.1 d.1.2.2 d.2 initPool
      have ha2 := addJacobian_leakedcount Bx By Bz d.1.1 d.1.2.1 d.1.2.2 d.2 hdr
      have har := addJacobian_leakedcount_range Bx By Bz d.1.1 d.1.2.1 d.1.2.2 d.2 hdr
      rw [← ha1, ← ha2]
      generalize newsecp256k1.addJacobian Bx By Bz d.1.1 d.1.2.1 d.1.2.2 d.2 = a at har ⊢
      exact ih _ a har
    · simp only [if_neg hbit]
      exact ih _ d hdr

theorem scalarMultFold_count (Bx By Bz : ℤ) (k : List ℕ) :
    ∀ acc : (ℤ × ℤ × ℤ) × numPool,
      (-2 ^ 63 ≤ acc.2.leakedcount ∧ acc.2.leakedcount < 2 ^ 63) →
      (k.foldl (fun a byte => newsecp256k1.scalarMultBits Bx By Bz 8 byte a) acc).2.leakedcount =
        (k.foldl (fun a byte => newsecp256k1.scalarMultBitsCount Bx By Bz 8 byte a)
          (acc.1, acc.2.leakedcount)).2 := by
  induction k with
  | nil => intro acc _; rfl
  | cons b k ih =>
    intro acc hc
    obtain ⟨h1, h2, h3⟩ := scalarMultBits_count Bx By Bz 8 b acc hc
    rw [List.foldl_cons, List.foldl_cons, ih _ h3, h1, h2]

theorem ScalarMult_count (Bx By : ℤ) (k : List ℕ) (pool : numPool)
    (hc : -2 ^ 63 ≤ pool.Count ∧ pool.Count < 2 ^ 63) :
    (newsecp256k1.ScalarMult Bx By k pool).2.Count =
      (k.foldl (fun a byte => newsecp256k1.scalarMultBitsCount Bx By 1 8 byte a)
        ((0, 0, 0), pool.Count)).2 :=
  scalarMultFold_count Bx By 1 k ((0, 0, 0), pool) hc

theorem orderPlusTwoScalar_count :
    (orderPlusTwoScalar.foldl
      (fun a byte => newsecp256k1.scalarMultBitsCount newsecp256k1.Gx newsecp256k1.Gy 1 8 byte a)
      ((0, 0, 0), initPool.Count)).2 = 10 := by
  decide!

/-- C19, evaluated on the code: `addJacobian` on two copies of the generator (the branch
that delegates to `doubleJacobian`) leaves `Count()` at 10 on the fresh pool, and so do
the public `Add` of the generator with itself and `ScalarMult` / `ScalarBaseMult` on the
scalar `N + 2`. -/
theorem addJacobian_leaks_on_equal_points :
    initPool.Count = 0 ∧
    (newsecp256k1.addJacobian newsecp256k1.Gx newsecp256k1.Gy 1
      newsecp256k1.Gx newsecp256k1.Gy 1 initPool).2.Count = 10 ∧
    (newsecp256k1.Add newsecp256k1.Gx newsecp256k1.Gy
      newsecp256k1.Gx newsecp256k1.Gy initPool).2.Count = 10 ∧
    (bytesToNat orderPlusTwoScalar : ℤ) = newsecp256k1.N + 2 ∧
    (newsecp256k1.ScalarMult newsecp256k1.Gx newsecp256k1.Gy
      orderPlusTwoScalar initPool).2.Count = 10 ∧
    (newsecp256k1.ScalarBaseMult orderPlusTwoScalar initPool).2.Count = 10 := by
  have hs := (ScalarMult_count newsecp256k1.Gx newsecp256k1.Gy orderPlusTwoScalar initPool
    initPool_range).trans orderPlusTwoScalar_count
  exact ⟨by decide!, by decide!, by decide!, by decide!, hs, hs⟩


/-! ## Small multiples of the generator -/

theorem affineMatches_sound (X Y Z : ℤ) (r : ℤ × ℤ) (h : affineMatches X Y Z r = true) :
    newsecp256k1.affineFromJacobian X Y Z = some r := by
  unfold affineMatches at h
  by_cases hz : Z = 0
  · rw [if_pos hz, decide_eq_true_eq] at h
    rw [hz, h]
    exact affineFromJacobian_zero X Y
  · rw [if_neg hz] at h
    simp only [Bool.and_eq_true, decide_eq_true_eq] at h
    obtain ⟨h1, h2, h3, h4, h5⟩ := h
    exact affineFromJacobian_eq X Y Z r.1 r.2 h1 h2 h3 h4 h5

theorem generatorMultiples_scalar_check :
    ∀ k : ℕ, k < 17 →
      affineMatches
        ([k].foldl (fun acc byte =>
          newsecp256k1.scalarMultBits newsecp256k1.Gx newsecp256k1.Gy 1 8 byte acc)
          ((0, 0, 0), initPool)).1.1
        ([k].foldl (fun acc byte =>
          newsecp256k1.scalarMultBits newsecp256k1.Gx newsecp256k1.Gy 1 8 byte acc)
          ((0, 0, 0), initPool)).1.2.1
        ([k].foldl (fun acc byte =>
          newsecp256k1.scalarMultBits newsecp256k1.Gx newsecp256k1.Gy 1 8 byte acc)
          ((0, 0, 0), initPool)).1.2.2
        (generatorMultiples.getD k (0, 0)) = true := by
  decide!

theorem generatorMultiples_add_check :
    ∀ k1 : ℕ, k1 < 9 → ∀ k2 : ℕ, k2 < 9 →
      affineMatches
        (newsecp256k1.addJacobian (generatorMultiples.getD k1 (0, 0)).1
          (generatorMultiples.getD k1 (0, 0)).2
          (zForAffine (generatorMultiples.getD k1 (0, 0)).1 (generatorMultiples.getD k1 (0, 0)).2)
          (generatorMultiples.getD k2 (0, 0)).1 (generatorMultiples.getD k2 (0, 0)).2
          (zForAffine (generatorMultiples.getD k2 (0, 0)).1 (generatorMultiples.getD k2 (0, 0)).2)
          initPool).1.1
        (newsecp256k1.addJacobian (generatorMultiples.getD k1 (0, 0)).1
          (generatorMultiples.getD k1 (0, 0)).2
          (zForAffine (generatorMultiples.getD k1 (0, 0)).1 (generatorMultiples.getD k1 (0, 0)).2)
          (generatorMultiples.getD k2 (0, 0)).1 (generatorMultiples.getD k2 (0, 0)).2
          (zForAffine (generatorMultiples.getD k2 (0, 0)).1 (generatorMultiples.getD k2 (0, 0)).2)
          initPool).1.2.1
        (newsecp256k1.addJacobian (generatorMultiples.getD k1 (0, 0)).1
          (generatorMultiples.getD k1 (0, 0)).2
          (zForAffine (generatorMultiples.getD k1 (0, 0)).1 (generatorMultiples.getD k1 (0, 0)).2)
          (generatorMultiples.getD k2 (0, 0)).1 (generatorMultiples.getD k2 (0, 0)).2
          (zForAffine (generatorMultiples.getD k2 (0, 0)).1 (generatorMultiples.getD k2 (0, 0)).2)
          initPool).1.2.2
        (generatorMultiples.getD (k1 + k2) (0, 0)) = true := by
  decide!

theorem ScalarMult_small_multiple (k : ℕ) (hk : k < 17) (pool : numPool) :
    (newsecp256k1.ScalarMult newsecp256k1.Gx newsecp256k1.Gy [k] pool).1 =
      some (generatorMultiples.getD k (0, 0)) := by
  rw [ScalarMult_fst newsecp256k1 _ _ [k] pool initPool]
  exact affineMatches_sound _ _ _ _ (generatorMultiples_scalar_check k hk)

theorem Add_fst (x1 y1 x2 y2 : ℤ) (pool pool' : numPool) :
    (newsecp256k1.Add x1 y1 x2 y2 pool).1 = (newsecp256k1.Add x1 y1 x2 y2 pool').1 := by
  unfold secp256k1Curve.Add
  simp only
  rw [addJacobian_fst newsecp256k1 x1 y1 _ x2 y2 _ pool pool']

theorem Add_small_multiples (k1 k2 : ℕ) (h1 : k1 < 9) (h2 : k2 < 9) (pool : numPool) :
    (newsecp256k1.Add (generatorMultiples.getD k1 (0, 0)).1 (generatorMultiples.getD k1 (0, 0)).2
      (generatorMultiples.getD k2 (0, 0)).1 (generatorMultiples.getD k2 (0, 0)).2 pool).1 =
      some (generatorMultiples.getD (k1 + k2) (0, 0)) := by
  rw [Add_fst _ _ _ _ pool initPool]
  exact affineMatches_sound _ _ _ _ (generatorMultiples_add_check k1 h1 k2 h2)

/-- C12: scalar multiplication of the generator is additive on small scalars.  For
`0 ≤ k1, k2 ≤ 8`, each passed as a one-byte sequence, the public `Add` of
`ScalarMult(G, k1)` and `ScalarMult(G, k2)` is `ScalarMult(G, k1 + k2)`, whatever the
pool states. -/
theorem scalarMult_additive_small (k1 k2 : ℕ) (h1 : k1 ≤ 8) (h2 : k2 ≤ 8)
    (pool1 pool2 pool3 pool4 : numPool) :
    ∃ a b c : ℤ × ℤ,
      (newsecp256k1.ScalarMult newsecp256k1.Gx newsecp256k1.Gy [k1] pool1).1 = some a ∧
      (newsecp256k1.ScalarMult newsecp256k1.Gx newsecp256k1.Gy [k2] pool2).1 = some b ∧
      (newsecp256k1.Add a.1 a.2 b.1 b.2 pool3).1 = some c ∧
      (newsecp256k1.ScalarMult newsecp256k1.Gx newsecp256k1.Gy [k1 + k2] pool4).1 = some c :=
  ⟨generatorMultiples.getD k1 (0, 0), generatorMultiples.getD k2 (0, 0),
    generatorMultiples.getD (k1 + k2) (0, 0),
    ScalarMult_small_multiple k1 (by omega) pool1,
    ScalarMult_small_multiple k2 (by omega) pool2,
    Add_small_multiples k1 k2 (by omega) (by omega) pool3,
    ScalarMult_small_multiple (k1 + k2) (by omega) pool4⟩

theorem scalarMult_additive_small_witness :
    (3 : ℕ) ≤ 8 ∧ (5 : ℕ) ≤ 8 ∧
    ∃ a b c : ℤ × ℤ,
      (newsecp256k1.ScalarMult newsecp256k1.Gx newsecp256k1.Gy [3] initPool).1 = some a ∧
      (newsecp256k1.ScalarMult newsecp256k1.Gx newsecp256k1.Gy [5] initPool).1 = some b ∧
      (newsecp256k1.Add a.1 a.2 b.1 b.2 initPool).1 = some c ∧
      (newsecp256k1.ScalarMult newsecp256k1.Gx newsecp256k1.Gy [3 + 5] initPool).1 = some c :=
  ⟨by decide, by decide,
    scalarMult_additive_small 3 5 (by decide) (by decide) initPool initPool initPool initPool⟩


end Secp256k1
